import Mathlib

/-!
Verification of the order-book reconstruction engine of `task1-pcap-parser`
(`order_book.py` and the replay loop of `src/parser.py`).

Python dictionaries are embedded as association lists (insertion-ordered,
unique keys), `heapq` heaps as sorted lists (push inserts keeping order,
the head is the heap top, pop drops the head), float prices as rationals,
int quantities and timestamps as integers.
-/

set_option linter.unusedSectionVars false

namespace OB

/-! ### Association lists (embedding of Python `dict`) -/

/-- Lookup of a key, as Python `d.get(k)` / `k in d`. -/
def alookup {κ β : Type} [DecidableEq κ] (k : κ) : List (κ × β) → Option β
  | [] => none
  | (k', v) :: rest => if k' = k then some v else alookup k rest

/-- `d[k] = v`: update in place if the key exists, else append (Python
insertion order). -/
def aset {κ β : Type} [DecidableEq κ] (k : κ) (v : β) : List (κ × β) → List (κ × β)
  | [] => [(k, v)]
  | (k', v') :: rest => if k' = k then (k, v) :: rest else (k', v') :: aset k v rest

/-- `d.pop(k, None)` / `del d[k]`: remove the first entry with this key. -/
def aerase {κ β : Type} [DecidableEq κ] (k : κ) : List (κ × β) → List (κ × β)
  | [] => []
  | (k', v') :: rest => if k' = k then rest else (k', v') :: aerase k rest

/-- Keys of an association list. -/
def akeys {κ β : Type} (l : List (κ × β)) : List κ := l.map Prod.fst

/-! ### Sorted-list model of `heapq` heaps

`heapq.heappush` adds an element, the heap top is the minimum, and
`heapq.heappop` removes a minimum: observationally a heap is a sorted list
whose head is the top.  `order_book.py` keeps a max-heap of bid prices
(by pushing negated floats) and a min-heap of ask prices; we keep the bid
list sorted descending and the ask list sorted ascending. -/

/-- Push onto the bid max-heap: insert keeping the list sorted descending. -/
def insertDesc (p : ℚ) : List ℚ → List ℚ
  | [] => [p]
  | q :: rest => if q ≤ p then p :: q :: rest else q :: insertDesc p rest

/-- Push onto the ask min-heap: insert keeping the list sorted ascending. -/
def insertAsc (p : ℚ) : List ℚ → List ℚ
  | [] => [p]
  | q :: rest => if p ≤ q then p :: q :: rest else q :: insertAsc p rest

/-- Maximum of a list of rationals, `none` on the empty list. -/
def listMax : List ℚ → Option ℚ
  | [] => none
  | p :: rest =>
    match listMax rest with
    | none => some p
    | some q => some (max p q)

/-- Minimum of a list of rationals, `none` on the empty list. -/
def listMin : List ℚ → Option ℚ
  | [] => none
  | p :: rest =>
    match listMin rest with
    | none => some p
    | some q => some (min p q)

/-! ### Data model (`order_book.py`) -/

/-- `Order`: single order in the book. -/
structure Order where
  order_id : ℕ
  price : ℚ
  size : ℤ
  side : String
  timestamp_ns : ℤ
deriving DecidableEq, Repr

/-- `TopOfBook`: top of book snapshot. -/
structure TopOfBook where
  timestamp_ns : ℤ
  security_id : ℤ
  symbol : String
  best_bid_price : Option ℚ
  best_bid_size : ℤ
  best_ask_price : Option ℚ
  best_ask_size : ℤ
  spread : Option ℚ
  mid_price : Option ℚ
deriving DecidableEq, Repr

/-- One side's inner dict `{order_id: size}` of a price level. -/
abbrev Level := List (ℕ × ℤ)

/-- One side's price-level dict `price -> {order_id: size}`. -/
abbrev Levels := List (ℚ × Level)

/-- `levels[price]` read through the `defaultdict(dict)`: missing key reads
as the empty dict. -/
def levelAt (ls : Levels) (p : ℚ) : Level := (alookup p ls).getD []

/-- `price not in levels or not levels[price]` — the guard used before
pushing a price onto a heap. -/
def levelMissing (ls : Levels) (p : ℚ) : Bool :=
  match alookup p ls with
  | none => true
  | some d => d.isEmpty

/-- `price in levels and levels[price]` — the guard used by the best-price
queries. -/
def levelNonempty (ls : Levels) (p : ℚ) : Bool :=
  match alookup p ls with
  | none => false
  | some d => !d.isEmpty

/-- `levels[price][order_id] = size` (via `defaultdict`, the inner dict is
created on first touch). -/
def setLevel (ls : Levels) (p : ℚ) (oid : ℕ) (s : ℤ) : Levels :=
  aset p (aset oid s (levelAt ls p)) ls

/-- `if price in levels: levels[price].pop(order_id, None)`. -/
def popFromLevel (ls : Levels) (p : ℚ) (oid : ℕ) : Levels :=
  match alookup p ls with
  | none => ls
  | some d => aset p (aerase oid d) ls

/-- `sum(levels[price].values())`. -/
def levelSum (d : Level) : ℤ := (d.map Prod.snd).sum

/-- `OrderBook.__init__`: book state for a single security. -/
structure OrderBook where
  security_id : ℤ
  symbol : String
  orders : List (ℕ × Order)
  bid_levels : Levels
  ask_levels : Levels
  bid_prices : List ℚ
  ask_prices : List ℚ
  last_update_ns : ℤ
deriving DecidableEq, Repr

/-- A freshly constructed `OrderBook(security_id, symbol)`. -/
def emptyBook (security_id : ℤ) (symbol : String) : OrderBook :=
  { security_id := security_id, symbol := symbol, orders := [],
    bid_levels := [], ask_levels := [], bid_prices := [], ask_prices := [],
    last_update_ns := 0 }

/-- `OrderBook.modify_order`: modify an existing order; unknown `order_id`
is a silent no-op. -/
def modify_order (order_id : ℕ) (new_price : ℚ) (new_size : ℤ)
    (timestamp_ns : ℤ) (b : OrderBook) : OrderBook :=
  match alookup order_id b.orders with
  | none => b
  | some o =>
    if o.side = "BID" then
      let bl1 := popFromLevel b.bid_levels o.price order_id
      let bp := if levelMissing bl1 new_price then insertDesc new_price b.bid_prices
                else b.bid_prices
      { b with bid_levels := setLevel bl1 new_price order_id new_size,
               bid_prices := bp,
               orders := aset order_id
                 { o with price := new_price, size := new_size,
                          timestamp_ns := timestamp_ns } b.orders,
               last_update_ns := timestamp_ns }
    else
      let al1 := popFromLevel b.ask_levels o.price order_id
      let ap := if levelMissing al1 new_price then insertAsc new_price b.ask_prices
                else b.ask_prices
      { b with ask_levels := setLevel al1 new_price order_id new_size,
               ask_prices := ap,
               orders := aset order_id
                 { o with price := new_price, size := new_size,
                          timestamp_ns := timestamp_ns } b.orders,
               last_update_ns := timestamp_ns }

/-- `OrderBook.add_order`: add a new order; an already-present `order_id`
is treated as a modify. -/
def add_order (order_id : ℕ) (price : ℚ) (size : ℤ) (side : String)
    (timestamp_ns : ℤ) (b : OrderBook) : OrderBook :=
  if (alookup order_id b.orders).isSome then
    modify_order order_id price size timestamp_ns b
  else
    let o : Order := { order_id := order_id, price := price, size := size,
                       side := side, timestamp_ns := timestamp_ns }
    let b1 := { b with orders := aset order_id o b.orders,
                       last_update_ns := timestamp_ns }
    if side = "BID" then
      let bp := if levelMissing b1.bid_levels price then insertDesc price b1.bid_prices
                else b1.bid_prices
      { b1 with bid_levels := setLevel b1.bid_levels price order_id size,
                bid_prices := bp }
    else
      let ap := if levelMissing b1.ask_levels price then insertAsc price b1.ask_prices
                else b1.ask_prices
      { b1 with ask_levels := setLevel b1.ask_levels price order_id size,
                ask_prices := ap }

/-- `OrderBook.delete_order`: delete an order; unknown `order_id` is a
silent no-op. -/
def delete_order (order_id : ℕ) (timestamp_ns : ℤ) (b : OrderBook) : OrderBook :=
  match alookup order_id b.orders with
  | none => b
  | some o =>
    if o.side = "BID" then
      { b with bid_levels := popFromLevel b.bid_levels o.price order_id,
               orders := aerase order_id b.orders,
               last_update_ns := timestamp_ns }
    else
      { b with ask_levels := popFromLevel b.ask_levels o.price order_id,
               orders := aerase order_id b.orders,
               last_update_ns := timestamp_ns }

/-- The lazy-purge loop shared by `get_best_bid`/`get_best_ask`: pop stale
prices until the heap top has a non-empty level; return the remaining heap
and the query answer. -/
def scanHeap (levels : Levels) : List ℚ → List ℚ × (Option ℚ × ℤ)
  | [] => ([], (none, 0))
  | p :: rest =>
    if levelNonempty levels p then (p :: rest, (some p, levelSum (levelAt levels p)))
    else scanHeap levels rest

/-- `OrderBook.get_best_bid`: best bid price and total size at that level
(purging stale heap entries as a side effect). -/
def get_best_bid (b : OrderBook) : OrderBook × (Option ℚ × ℤ) :=
  let r := scanHeap b.bid_levels b.bid_prices
  ({ b with bid_prices := r.1 }, r.2)

/-- `OrderBook.get_best_ask`: best ask price and total size at that level
(purging stale heap entries as a side effect). -/
def get_best_ask (b : OrderBook) : OrderBook × (Option ℚ × ℤ) :=
  let r := scanHeap b.ask_levels b.ask_prices
  ({ b with ask_prices := r.1 }, r.2)

/-- `OrderBook.get_top_of_book`: current top-of-book snapshot (the two
queries mutate the heaps). -/
def get_top_of_book (b : OrderBook) : OrderBook × TopOfBook :=
  let rb := get_best_bid b
  let ra := get_best_ask rb.1
  let spread : Option ℚ :=
    match rb.2.1, ra.2.1 with
    | some x, some y => some (y - x)
    | _, _ => none
  let mid : Option ℚ :=
    match rb.2.1, ra.2.1 with
    | some x, some y => some ((x + y) / 2)
    | _, _ => none
  (ra.1,
   { timestamp_ns := ra.1.last_update_ns, security_id := b.security_id,
     symbol := b.symbol,
     best_bid_price := rb.2.1, best_bid_size := rb.2.2,
     best_ask_price := ra.2.1, best_ask_size := ra.2.2,
     spread := spread, mid_price := mid })

/-! ### Operation sequences and reachability -/

/-- One operation on a single book, including the (heap-mutating) best-price
queries. -/
inductive BookOp where
  | add (order_id : ℕ) (price : ℚ) (size : ℤ) (side : String) (timestamp_ns : ℤ)
  | modify (order_id : ℕ) (price : ℚ) (size : ℤ) (timestamp_ns : ℤ)
  | delete (order_id : ℕ) (timestamp_ns : ℤ)
  | queryBid
  | queryAsk
deriving DecidableEq, Repr

/-- Apply one operation (queries keep only their heap side effect). -/
def applyOp (b : OrderBook) : BookOp → OrderBook
  | BookOp.add oid p s side ts => add_order oid p s side ts b
  | BookOp.modify oid p s ts => modify_order oid p s ts b
  | BookOp.delete oid ts => delete_order oid ts b
  | BookOp.queryBid => (get_best_bid b).1
  | BookOp.queryAsk => (get_best_ask b).1

/-- Apply a sequence of operations in order. -/
def applyOps (b : OrderBook) (ops : List BookOp) : OrderBook :=
  ops.foldl applyOp b

/-- Book states reachable from a fresh `OrderBook` by some finite operation
sequence. -/
def Reachable (b : OrderBook) : Prop :=
  ∃ sid sym ops, b = applyOps (emptyBook sid sym) ops

/-! ### Order book manager (`OrderBookManager`) -/

/-- One decoded order-update message, the argument list of
`OrderBookManager.process_order`. -/
structure Event where
  security_id : ℤ
  symbol : String
  order_id : ℕ
  action : String
  side : String
  price : ℚ
  size : ℤ
  timestamp_ns : ℤ
deriving DecidableEq, Repr

/-- `OrderBookManager.__init__`. -/
structure OrderBookManager where
  books : List (ℤ × OrderBook)
  tob_history : List TopOfBook
deriving DecidableEq, Repr

/-- A freshly constructed `OrderBookManager()`. -/
def emptyManager : OrderBookManager := { books := [], tob_history := [] }

/-- `OrderBookManager.get_or_create_book` (the read half: the book that the
event will be applied to). -/
def bookFor (m : OrderBookManager) (security_id : ℤ) (symbol : String) : OrderBook :=
  match alookup security_id m.books with
  | some b => b
  | none => emptyBook security_id symbol

/-- The `NEW`/`CHANGE`/`DELETE` dispatch inside `process_order`
(unrecognized action leaves the book untouched). -/
def dispatchAction (e : Event) (b : OrderBook) : OrderBook :=
  if e.action = "NEW" then
    add_order e.order_id e.price e.size e.side e.timestamp_ns b
  else if e.action = "CHANGE" then
    modify_order e.order_id e.price e.size e.timestamp_ns b
  else if e.action = "DELETE" then
    delete_order e.order_id e.timestamp_ns b
  else b

/-- `OrderBookManager.process_order`: apply one event, append and return the
post-event snapshot when the top of book changed. -/
def process_order (m : OrderBookManager) (e : Event) :
    OrderBookManager × Option TopOfBook :=
  let b0 := bookFor m e.security_id e.symbol
  let r1 := get_top_of_book b0
  let b2 := dispatchAction e r1.1
  let r2 := get_top_of_book b2
  let books2 := aset e.security_id r2.1 m.books
  if r1.2.best_bid_price ≠ r2.2.best_bid_price ∨
     r1.2.best_ask_price ≠ r2.2.best_ask_price then
    ({ books := books2, tob_history := m.tob_history ++ [r2.2] }, some r2.2)
  else
    ({ books := books2, tob_history := m.tob_history }, none)

/-- Process a whole decoded event stream in order. -/
def processEvents (m : OrderBookManager) (es : List Event) : OrderBookManager :=
  es.foldl (fun m e => (process_order m e).1) m

/-- Manager states reachable from a fresh manager by some finite event
stream. -/
def MReachable (m : OrderBookManager) : Prop :=
  ∃ es, m = processEvents emptyManager es

/-! ### The replay loop of `parse_incremental` (`src/parser.py`)

Only the record-consumption skeleton is relevant to the record cap: the
loop body (byte-pattern search and book updates) is abstracted as a state
update `step` applied once per consumed record.  The guard is the literal
translation of `if max_packets and packet_count >= max_packets: break`,
where a Python `None` or `0` bound is falsy. -/

/-- Truthiness test `max_packets and packet_count >= max_packets`. -/
def capHit (max_packets : Option ℤ) (packet_count : ℕ) : Bool :=
  match max_packets with
  | none => false
  | some m => if m = 0 then false else decide ((packet_count : ℤ) ≥ m)

/-- The `for pkt in records` loop of `parse_incremental`: returns the final
state and the number of records consumed. -/
def parseLoop {σ α : Type} (step : σ → α → σ) (max_packets : Option ℤ)
    (packet_count : ℕ) (s : σ) : List α → σ × ℕ
  | [] => (s, 0)
  | r :: rest =>
    if capHit max_packets packet_count then (s, 0)
    else
      let out := parseLoop step max_packets (packet_count + 1) (step s r) rest
      (out.1, out.2 + 1)

/-- Number of records `parse_incremental` consumes from a stream of length
`n` under bound `max_packets`, starting from count 0. -/
def consumedRecords {σ α : Type} (step : σ → α → σ) (max_packets : Option ℤ)
    (s : σ) (records : List α) : ℕ :=
  (parseLoop step max_packets 0 s records).2


/-! ### Specification-side definitions

These restate, directly from the orders map, what the spec says the
queries should return; the theorems compare the code's queries against
them. -/

/-- The bid-level entry for `order_id` at `price` (inner-dict lookup). -/
def entryB (b : OrderBook) (p : ℚ) (oid : ℕ) : Option ℤ :=
  alookup oid (levelAt b.bid_levels p)

/-- The ask-level entry for `order_id` at `price` (inner-dict lookup). -/
def entryA (b : OrderBook) (p : ℚ) (oid : ℕ) : Option ℤ :=
  alookup oid (levelAt b.ask_levels p)

/-- Prices of the currently resident bid-side orders. -/
def bidPricesOf (b : OrderBook) : List ℚ :=
  (b.orders.filter fun x => decide (x.2.side = "BID")).map fun x => x.2.price

/-- Prices of the currently resident ask-side orders. -/
def askPricesOf (b : OrderBook) : List ℚ :=
  (b.orders.filter fun x => decide (¬x.2.side = "BID")).map fun x => x.2.price

/-- The `(order_id, quantity)` pairs of resident bid orders at one price. -/
def bidOrdersAt (b : OrderBook) (p : ℚ) : Level :=
  (b.orders.filter fun x => decide (x.2.side = "BID" ∧ x.2.price = p)).map
    fun x => (x.1, x.2.size)

/-- The `(order_id, quantity)` pairs of resident ask orders at one price. -/
def askOrdersAt (b : OrderBook) (p : ℚ) : Level :=
  (b.orders.filter fun x => decide (¬x.2.side = "BID" ∧ x.2.price = p)).map
    fun x => (x.1, x.2.size)

/-- Modelled from the spec: the best bid is the maximum price among resident
bid orders together with the sum of the quantities at that price, and
`(none, 0)` when the bid side is empty. -/
def bestBidSpec (b : OrderBook) : Option ℚ × ℤ :=
  match listMax (bidPricesOf b) with
  | none => (none, 0)
  | some p => (some p, levelSum (bidOrdersAt b p))

/-- Modelled from the spec: the best ask is the minimum price among resident
ask orders together with the sum of the quantities at that price, and
`(none, 0)` when the ask side is empty. -/
def bestAskSpec (b : OrderBook) : Option ℚ × ℤ :=
  match listMin (askPricesOf b) with
  | none => (none, 0)
  | some p => (some p, levelSum (askOrdersAt b p))

/-- The book representation invariant: key uniqueness, the exact
orders-to-levels correspondence, heap completeness and heap order. -/
structure Inv (b : OrderBook) : Prop where
  ordersNodup : (akeys b.orders).Nodup
  bidKeysNodup : (akeys b.bid_levels).Nodup
  askKeysNodup : (akeys b.ask_levels).Nodup
  bidInnerNodup : ∀ pd ∈ b.bid_levels, (akeys pd.2).Nodup
  askInnerNodup : ∀ pd ∈ b.ask_levels, (akeys pd.2).Nodup
  entryOfOrder : ∀ oid o, alookup oid b.orders = some o →
    (∀ p, entryB b p oid =
      if o.side = "BID" ∧ p = o.price then some o.size else none) ∧
    (∀ p, entryA b p oid =
      if ¬o.side = "BID" ∧ p = o.price then some o.size else none)
  orderOfEntryB : ∀ p oid s, entryB b p oid = some s →
    ∃ o, alookup oid b.orders = some o ∧ o.side = "BID" ∧ o.price = p ∧ o.size = s
  orderOfEntryA : ∀ p oid s, entryA b p oid = some s →
    ∃ o, alookup oid b.orders = some o ∧ ¬o.side = "BID" ∧ o.price = p ∧ o.size = s
  bidComplete : ∀ p, levelAt b.bid_levels p ≠ [] → p ∈ b.bid_prices
  askComplete : ∀ p, levelAt b.ask_levels p ≠ [] → p ∈ b.ask_prices
  bidSorted : b.bid_prices.Pairwise (· ≥ ·)
  askSorted : b.ask_prices.Pairwise (· ≤ ·)

/-- Manager-level invariant: every stored book satisfies `Inv`. -/
def MInv (m : OrderBookManager) : Prop :=
  ∀ sid b, alookup sid m.books = some b → Inv b

/-! ### Example inputs used by the witnesses -/

/-- A small mixed operation sequence. -/
def exOps : List BookOp :=
  [BookOp.add 1 100 5 "BID" 10, BookOp.add 2 105 3 "BID" 11,
   BookOp.add 3 51 2 "OFFER" 12, BookOp.delete 2 13,
   BookOp.modify 3 52 4 14, BookOp.queryBid]

/-- The book reached by `exOps`. -/
def exBook : OrderBook := applyOps (emptyBook 7 "WDOF25") exOps

/-- A small chronological event stream. -/
def exEvents : List Event :=
  [⟨1, "A", 1, "NEW", "BID", 100, 5, 10⟩,
   ⟨1, "A", 2, "NEW", "OFFER", 101, 3, 11⟩,
   ⟨2, "B", 7, "NEW", "BID", 50, 2, 12⟩,
   ⟨1, "A", 1, "CHANGE", "BID", 99, 5, 13⟩,
   ⟨1, "A", 2, "DELETE", "OFFER", 0, 0, 14⟩,
   ⟨1, "A", 9, "DELETE", "BID", 0, 0, 15⟩]

/-- A single decoded event. -/
def exEvent : Event := ⟨1, "A", 3, "NEW", "BID", 102, 1, 20⟩

/-! ### Lemma development -/

section AListLemmas

variable {κ β : Type} [DecidableEq κ]

@[simp] theorem akeys_nil : akeys ([] : List (κ × β)) = [] := rfl

@[simp] theorem akeys_cons (p : κ × β) (l : List (κ × β)) :
    akeys (p :: l) = p.1 :: akeys l := rfl

@[simp] theorem alookup_nil (k : κ) : alookup k ([] : List (κ × β)) = none := rfl

theorem alookup_cons (k k' : κ) (v : β) (l : List (κ × β)) :
    alookup k ((k', v) :: l) = if k' = k then some v else alookup k l := rfl

@[simp] theorem alookup_aset_self (k : κ) (v : β) (l : List (κ × β)) :
    alookup k (aset k v l) = some v := by
  induction l with
  | nil => simp [aset, alookup]
  | cons hd tl ih =>
    obtain ⟨k', v'⟩ := hd
    by_cases h : k' = k <;> simp [aset, alookup, h, ih]

theorem alookup_aset_ne (k k' : κ) (v : β) (l : List (κ × β)) (h : k ≠ k') :
    alookup k' (aset k v l) = alookup k' l := by
  induction l with
  | nil => simp [aset, alookup, h]
  | cons hd tl ih =>
    obtain ⟨k'', v''⟩ := hd
    by_cases h2 : k'' = k
    · subst h2
      simp [aset, alookup, h]
    · simp [aset, alookup, h2, ih]

theorem alookup_aerase_ne (k k' : κ) (l : List (κ × β)) (h : k ≠ k') :
    alookup k' (aerase k l) = alookup k' l := by
  induction l with
  | nil => simp [aerase]
  | cons hd tl ih =>
    obtain ⟨k'', v''⟩ := hd
    by_cases h2 : k'' = k
    · subst h2
      simp [aerase, alookup, h]
    · simp [aerase, alookup, h2, ih]

theorem alookup_eq_some_mem {k : κ} {v : β} {l : List (κ × β)}
    (h : alookup k l = some v) : (k, v) ∈ l := by
  induction l with
  | nil => simp [alookup] at h
  | cons hd tl ih =>
    obtain ⟨k', v'⟩ := hd
    by_cases h2 : k' = k
    · subst h2
      simp [alookup] at h
      simp [h]
    · simp [alookup, h2] at h
      exact List.mem_cons_of_mem _ (ih h)

theorem alookup_isSome_iff_mem_akeys {k : κ} {l : List (κ × β)} :
    (alookup k l).isSome ↔ k ∈ akeys l := by
  induction l with
  | nil => simp [alookup, akeys]
  | cons hd tl ih =>
    obtain ⟨k', v'⟩ := hd
    by_cases h : k' = k
    · subst h
      simp [alookup, akeys]
    · simp [alookup, akeys, h, Ne.symm h, ih]

theorem alookup_eq_none_of_not_mem {k : κ} {l : List (κ × β)}
    (h : k ∉ akeys l) : alookup k l = none := by
  cases h2 : alookup k l with
  | none => rfl
  | some v =>
    exact absurd (alookup_isSome_iff_mem_akeys.mp (by simp [h2])) h

theorem mem_alookup_of_nodup {k : κ} {v : β} {l : List (κ × β)}
    (hd : (akeys l).Nodup) (h : (k, v) ∈ l) : alookup k l = some v := by
  induction l with
  | nil => simp at h
  | cons hdp tl ih =>
    obtain ⟨k', v'⟩ := hdp
    rw [akeys_cons] at hd
    have hd1 := (List.nodup_cons.mp hd).1
    have hd2 := (List.nodup_cons.mp hd).2
    rcases List.mem_cons.mp h with h1 | h1
    · rw [Prod.mk.injEq] at h1
      obtain ⟨rfl, rfl⟩ := h1
      simp [alookup]
    · have hk : k' ≠ k := by
        intro he
        subst he
        exact hd1 (List.mem_map.mpr ⟨(k', v), h1, rfl⟩)
      rw [alookup_cons, if_neg hk]
      exact ih hd2 h1

theorem akeys_aset (k : κ) (v : β) (l : List (κ × β)) :
    akeys (aset k v l) = if k ∈ akeys l then akeys l else akeys l ++ [k] := by
  induction l with
  | nil => simp [aset]
  | cons hd tl ih =>
    obtain ⟨k', v'⟩ := hd
    by_cases h : k' = k
    · subst h
      simp [aset]
    · rw [aset, if_neg h, akeys_cons, akeys_cons, ih]
      by_cases h2 : k ∈ akeys tl
      · simp [h2]
      · simp [h2, Ne.symm h]

theorem nodup_akeys_aset (k : κ) (v : β) {l : List (κ × β)}
    (h : (akeys l).Nodup) : (akeys (aset k v l)).Nodup := by
  rw [akeys_aset]
  by_cases h2 : k ∈ akeys l
  · rw [if_pos h2]; exact h
  · rw [if_neg h2]
    simpa [List.nodup_append] using ⟨h, h2⟩

theorem akeys_aerase_sublist (k : κ) (l : List (κ × β)) :
    (akeys (aerase k l)).Sublist (akeys l) := by
  induction l with
  | nil => simp [aerase]
  | cons hd tl ih =>
    obtain ⟨k', v'⟩ := hd
    by_cases h : k' = k
    · simp only [aerase, if_pos h, akeys_cons]
      exact List.sublist_cons_self _ _
    · simp only [aerase, if_neg h, akeys_cons]
      exact ih.cons₂ _

theorem nodup_akeys_aerase (k : κ) {l : List (κ × β)}
    (h : (akeys l).Nodup) : (akeys (aerase k l)).Nodup :=
  (akeys_aerase_sublist k l).nodup h

theorem alookup_aerase_self (k : κ) {l : List (κ × β)}
    (h : (akeys l).Nodup) : alookup k (aerase k l) = none := by
  induction l with
  | nil => rfl
  | cons hd tl ih =>
    obtain ⟨k', v'⟩ := hd
    rw [akeys_cons] at h
    have h1 := (List.nodup_cons.mp h).1
    have h2 := (List.nodup_cons.mp h).2
    by_cases hk : k' = k
    · subst hk
      rw [aerase, if_pos rfl]
      exact alookup_eq_none_of_not_mem h1
    · rw [aerase, if_neg hk, alookup_cons, if_neg hk]
      exact ih h2

theorem mem_of_mem_aerase {k : κ} {p : κ × β} {l : List (κ × β)}
    (h : p ∈ aerase k l) : p ∈ l := by
  induction l with
  | nil => simp [aerase] at h
  | cons hd tl ih =>
    obtain ⟨k', v'⟩ := hd
    by_cases h2 : k' = k
    · simp only [aerase, if_pos h2] at h
      exact List.mem_cons_of_mem _ h
    · simp only [aerase, if_neg h2, List.mem_cons] at h
      rcases h with h | h
      · simp [h]
      · exact List.mem_cons_of_mem _ (ih h)

theorem mem_of_mem_aset {k : κ} {v : β} {p : κ × β} {l : List (κ × β)}
    (h : p ∈ aset k v l) : p ∈ l ∨ p = (k, v) := by
  induction l with
  | nil => simp [aset] at h; simp [h]
  | cons hd tl ih =>
    obtain ⟨k', v'⟩ := hd
    by_cases h2 : k' = k
    · simp only [aset, if_pos h2, List.mem_cons] at h
      rcases h with h | h
      · simp [h]
      · exact Or.inl (List.mem_cons_of_mem _ h)
    · simp only [aset, if_neg h2, List.mem_cons] at h
      rcases h with h | h
      · exact Or.inl (by simp [h])
      · rcases ih h with h3 | h3
        · exact Or.inl (List.mem_cons_of_mem _ h3)
        · exact Or.inr h3

end AListLemmas

theorem mem_insertDesc {x p : ℚ} {l : List ℚ} :
    x ∈ insertDesc p l ↔ x = p ∨ x ∈ l := by
  induction l with
  | nil => simp [insertDesc]
  | cons q rest ih =>
    by_cases h : q ≤ p
    · simp [insertDesc, h]
    · simp [insertDesc, h, ih]
      tauto

theorem mem_insertAsc {x p : ℚ} {l : List ℚ} :
    x ∈ insertAsc p l ↔ x = p ∨ x ∈ l := by
  induction l with
  | nil => simp [insertAsc]
  | cons q rest ih =>
    by_cases h : p ≤ q
    · simp [insertAsc, h]
    · simp [insertAsc, h, ih]
      tauto

theorem sorted_insertDesc {p : ℚ} {l : List ℚ} (h : l.Pairwise (· ≥ ·)) :
    (insertDesc p l).Pairwise (· ≥ ·) := by
  induction l with
  | nil => simp [insertDesc]
  | cons q rest ih =>
    have h1 := (List.pairwise_cons.mp h).1
    have h2 := (List.pairwise_cons.mp h).2
    by_cases hq : q ≤ p
    · rw [insertDesc, if_pos hq]
      refine List.pairwise_cons.mpr ⟨?_, h⟩
      intro b hb
      rcases List.mem_cons.mp hb with hb | hb
      · subst hb; exact hq
      · exact le_trans (h1 b hb) hq
    · rw [insertDesc, if_neg hq]
      refine List.pairwise_cons.mpr ⟨?_, ih h2⟩
      intro b hb
      rcases mem_insertDesc.mp hb with hb | hb
      · subst hb; exact le_of_not_le hq
      · exact h1 b hb

theorem sorted_insertAsc {p : ℚ} {l : List ℚ} (h : l.Pairwise (· ≤ ·)) :
    (insertAsc p l).Pairwise (· ≤ ·) := by
  induction l with
  | nil => simp [insertAsc]
  | cons q rest ih =>
    have h1 := (List.pairwise_cons.mp h).1
    have h2 := (List.pairwise_cons.mp h).2
    by_cases hq : p ≤ q
    · rw [insertAsc, if_pos hq]
      refine List.pairwise_cons.mpr ⟨?_, h⟩
      intro b hb
      rcases List.mem_cons.mp hb with hb | hb
      · subst hb; exact hq
      · exact le_trans hq (h1 b hb)
    · rw [insertAsc, if_neg hq]
      refine List.pairwise_cons.mpr ⟨?_, ih h2⟩
      intro b hb
      rcases mem_insertAsc.mp hb with hb | hb
      · subst hb; exact le_of_not_le hq
      · exact h1 b hb

theorem listMax_eq_none_iff {l : List ℚ} : listMax l = none ↔ l = [] := by
  cases l with
  | nil => simp [listMax]
  | cons p rest =>
    simp only [listMax]
    cases listMax rest <;> simp

theorem listMax_mem {l : List ℚ} {m : ℚ} (h : listMax l = some m) : m ∈ l := by
  induction l generalizing m with
  | nil => simp [listMax] at h
  | cons p rest ih =>
    simp only [listMax] at h
    cases h2 : listMax rest with
    | none =>
      rw [h2] at h
      simp at h
      simp [h]
    | some q =>
      rw [h2] at h
      simp at h
      rcases max_choice p q with hm | hm <;> rw [← h, hm]
      · simp
      · exact List.mem_cons_of_mem _ (ih h2)

theorem le_listMax {l : List ℚ} {m x : ℚ} (h : listMax l = some m) (hx : x ∈ l) :
    x ≤ m := by
  induction l generalizing m with
  | nil => simp at hx
  | cons p rest ih =>
    simp only [listMax] at h
    cases h2 : listMax rest with
    | none =>
      rw [h2] at h
      simp at h
      have : rest = [] := listMax_eq_none_iff.mp h2
      subst this
      simp at hx
      simp [hx, h]
    | some q =>
      rw [h2] at h
      simp at h
      rcases List.mem_cons.mp hx with hx | hx
      · subst hx
        rw [← h]
        exact le_max_left _ _
      · exact le_trans (ih h2 hx) (h ▸ le_max_right p q)

theorem listMin_eq_none_iff {l : List ℚ} : listMin l = none ↔ l = [] := by
  cases l with
  | nil => simp [listMin]
  | cons p rest =>
    simp only [listMin]
    cases listMin rest <;> simp

theorem listMin_mem {l : List ℚ} {m : ℚ} (h : listMin l = some m) : m ∈ l := by
  induction l generalizing m with
  | nil => simp [listMin] at h
  | cons p rest ih =>
    simp only [listMin] at h
    cases h2 : listMin rest with
    | none =>
      rw [h2] at h
      simp at h
      simp [h]
    | some q =>
      rw [h2] at h
      simp at h
      rcases min_choice p q with hm | hm <;> rw [← h, hm]
      · simp
      · exact List.mem_cons_of_mem _ (ih h2)

theorem listMin_le {l : List ℚ} {m x : ℚ} (h : listMin l = some m) (hx : x ∈ l) :
    m ≤ x := by
  induction l generalizing m with
  | nil => simp at hx
  | cons p rest ih =>
    simp only [listMin] at h
    cases h2 : listMin rest with
    | none =>
      rw [h2] at h
      simp at h
      have : rest = [] := listMin_eq_none_iff.mp h2
      subst this
      simp at hx
      simp [hx, h]
    | some q =>
      rw [h2] at h
      simp at h
      rcases List.mem_cons.mp hx with hx | hx
      · subst hx
        rw [← h]
        exact min_le_left _ _
      · exact le_trans (h ▸ min_le_right p q) (ih h2 hx)

/-! ### Price-level helper lemmas -/

theorem levelMissing_iff {ls : Levels} {p : ℚ} :
    levelMissing ls p = true ↔ levelAt ls p = [] := by
  unfold levelMissing levelAt
  cases h : alookup p ls with
  | none => simp
  | some d => simp [List.isEmpty_iff]

theorem levelNonempty_iff {ls : Levels} {p : ℚ} :
    levelNonempty ls p = true ↔ levelAt ls p ≠ [] := by
  unfold levelNonempty levelAt
  cases h : alookup p ls with
  | none => simp
  | some d => simp [List.isEmpty_iff]

theorem levelAt_setLevel (ls : Levels) (p : ℚ) (oid : ℕ) (s : ℤ) (p' : ℚ) :
    levelAt (setLevel ls p oid s) p' =
      if p = p' then aset oid s (levelAt ls p) else levelAt ls p' := by
  unfold setLevel levelAt
  by_cases h : p = p'
  · subst h
    simp [alookup_aset_self]
  · rw [alookup_aset_ne _ _ _ _ h, if_neg h]

theorem levelAt_popFromLevel (ls : Levels) (p : ℚ) (oid : ℕ) (p' : ℚ) :
    levelAt (popFromLevel ls p oid) p' =
      if p = p' then aerase oid (levelAt ls p) else levelAt ls p' := by
  unfold popFromLevel levelAt
  cases h : alookup p ls with
  | none =>
    by_cases h2 : p = p'
    · subst h2
      simp [h, aerase]
    · simp [h2]
  | some d =>
    by_cases h2 : p = p'
    · subst h2
      simp [h, alookup_aset_self]
    · simp [h2, alookup_aset_ne _ _ _ _ h2]

theorem nodup_levelAt {ls : Levels} (hi : ∀ pd ∈ ls, (akeys pd.2).Nodup) (p : ℚ) :
    (akeys (levelAt ls p)).Nodup := by
  unfold levelAt
  cases h : alookup p ls with
  | none => simp
  | some d => exact hi (p, d) (alookup_eq_some_mem h)

theorem entry_setLevel {ls : Levels} (p : ℚ) (oid : ℕ) (s : ℤ) (p' : ℚ) (oid' : ℕ) :
    alookup oid' (levelAt (setLevel ls p oid s) p') =
      if p = p' ∧ oid = oid' then some s else alookup oid' (levelAt ls p') := by
  rw [levelAt_setLevel]
  by_cases h : p = p'
  · subst h
    by_cases h2 : oid = oid'
    · subst h2
      simp [alookup_aset_self]
    · simp [h2, alookup_aset_ne _ _ _ _ h2]
  · simp [h]

theorem entry_popFromLevel {ls : Levels} (hi : ∀ pd ∈ ls, (akeys pd.2).Nodup)
    (p : ℚ) (oid : ℕ) (p' : ℚ) (oid' : ℕ) :
    alookup oid' (levelAt (popFromLevel ls p oid) p') =
      if p = p' ∧ oid = oid' then none else alookup oid' (levelAt ls p') := by
  rw [levelAt_popFromLevel]
  by_cases h : p = p'
  · subst h
    by_cases h2 : oid = oid'
    · subst h2
      simp [alookup_aerase_self _ (nodup_levelAt hi p)]
    · simp [h2, alookup_aerase_ne _ _ _ h2]
  · simp [h]

theorem keys_nodup_setLevel {ls : Levels} (p : ℚ) (oid : ℕ) (s : ℤ)
    (h : (akeys ls).Nodup) : (akeys (setLevel ls p oid s)).Nodup :=
  nodup_akeys_aset _ _ h

theorem keys_nodup_popFromLevel {ls : Levels} (p : ℚ) (oid : ℕ)
    (h : (akeys ls).Nodup) : (akeys (popFromLevel ls p oid)).Nodup := by
  unfold popFromLevel
  cases alookup p ls with
  | none => exact h
  | some d => exact nodup_akeys_aset _ _ h

theorem inner_nodup_setLevel {ls : Levels} (p : ℚ) (oid : ℕ) (s : ℤ)
    (hi : ∀ pd ∈ ls, (akeys pd.2).Nodup) :
    ∀ pd ∈ setLevel ls p oid s, (akeys pd.2).Nodup := by
  intro pd hpd
  rcases mem_of_mem_aset hpd with h | h
  · exact hi pd h
  · subst h
    exact nodup_akeys_aset _ _ (nodup_levelAt hi p)

theorem inner_nodup_popFromLevel {ls : Levels} (p : ℚ) (oid : ℕ)
    (hi : ∀ pd ∈ ls, (akeys pd.2).Nodup) :
    ∀ pd ∈ popFromLevel ls p oid, (akeys pd.2).Nodup := by
  intro pd hpd
  unfold popFromLevel at hpd
  cases h : alookup p ls with
  | none =>
    rw [h] at hpd
    exact hi pd hpd
  | some d =>
    rw [h] at hpd
    rcases mem_of_mem_aset hpd with h2 | h2
    · exact hi pd h2
    · subst h2
      exact nodup_akeys_aerase _ (hi (p, d) (alookup_eq_some_mem h))

theorem levelAt_ne_nil_of_lookup {ls : Levels} {p : ℚ} {oid : ℕ} {s : ℤ}
    (h : alookup oid (levelAt ls p) = some s) : levelAt ls p ≠ [] := by
  intro h2
  rw [h2] at h
  simp [alookup] at h

theorem aerase_subset_levelAt {ls : Levels} {p p' : ℚ} {oid : ℕ}
    (h : levelAt (popFromLevel ls p oid) p' ≠ []) : levelAt ls p' ≠ [] := by
  rw [levelAt_popFromLevel] at h
  by_cases h2 : p = p'
  · rw [if_pos h2] at h
    subst h2
    intro h3
    rw [h3] at h
    exact h rfl
  · rwa [if_neg h2] at h

/-! ### scanHeap lemmas -/

theorem scanHeap_sublist (levels : Levels) (h : List ℚ) :
    (scanHeap levels h).1.Sublist h := by
  induction h with
  | nil => simp [scanHeap]
  | cons p rest ih =>
    by_cases hp : levelNonempty levels p
    · simp [scanHeap, hp]
    · simp only [scanHeap, if_neg hp]
      exact ih.cons _

theorem scanHeap_idem (levels : Levels) (h : List ℚ) :
    scanHeap levels (scanHeap levels h).1 = scanHeap levels h := by
  induction h with
  | nil => rfl
  | cons p rest ih =>
    by_cases hp : levelNonempty levels p
    · simp [scanHeap, hp]
    · simp only [scanHeap, if_neg hp]
      exact ih

theorem scanHeap_keeps (levels : Levels) {h : List ℚ} {p : ℚ}
    (hmem : p ∈ h) (hne : levelAt levels p ≠ []) :
    p ∈ (scanHeap levels h).1 := by
  induction h with
  | nil => simp at hmem
  | cons q rest ih =>
    by_cases hq : levelNonempty levels q
    · simpa [scanHeap, hq] using hmem
    · have hpq : p ≠ q := by
        intro he
        subst he
        exact hq (levelNonempty_iff.mpr hne)
      simp only [scanHeap, if_neg hq]
      exact ih (by rcases List.mem_cons.mp hmem with h1 | h1; exact absurd h1 hpq; exact h1)

theorem scanHeap_answer (levels : Levels) {h : List ℚ}
    (hs : h.Pairwise (· ≥ ·)) (hc : ∀ p, levelAt levels p ≠ [] → p ∈ h) :
    ((scanHeap levels h).2 = (none, 0) ∧ ∀ p, levelAt levels p = []) ∨
    (∃ p, (scanHeap levels h).2 = (some p, levelSum (levelAt levels p)) ∧
      levelAt levels p ≠ [] ∧ ∀ q, levelAt levels q ≠ [] → q ≤ p) := by
  induction h with
  | nil =>
    left
    refine ⟨rfl, fun p => ?_⟩
    by_contra h2
    exact absurd (hc p h2) (List.not_mem_nil p)
  | cons p rest ih =>
    by_cases hp : levelNonempty levels p
    · right
      refine ⟨p, by simp [scanHeap, hp], levelNonempty_iff.mp hp, fun q hq => ?_⟩
      rcases List.mem_cons.mp (hc q hq) with h1 | h1
      · exact le_of_eq h1
      · exact (List.pairwise_cons.mp hs).1 q h1
    · have hpe : levelAt levels p = [] := by
        by_contra h2
        exact hp (levelNonempty_iff.mpr h2)
      have hc' : ∀ q, levelAt levels q ≠ [] → q ∈ rest := by
        intro q hq
        rcases List.mem_cons.mp (hc q hq) with h1 | h1
        · subst h1; exact absurd hpe hq
        · exact h1
      simpa only [scanHeap, if_neg hp] using ih (List.pairwise_cons.mp hs).2 hc'

theorem scanHeap_answer_asc (levels : Levels) {h : List ℚ}
    (hs : h.Pairwise (· ≤ ·)) (hc : ∀ p, levelAt levels p ≠ [] → p ∈ h) :
    ((scanHeap levels h).2 = (none, 0) ∧ ∀ p, levelAt levels p = []) ∨
    (∃ p, (scanHeap levels h).2 = (some p, levelSum (levelAt levels p)) ∧
      levelAt levels p ≠ [] ∧ ∀ q, levelAt levels q ≠ [] → p ≤ q) := by
  induction h with
  | nil =>
    left
    refine ⟨rfl, fun p => ?_⟩
    by_contra h2
    exact absurd (hc p h2) (List.not_mem_nil p)
  | cons p rest ih =>
    by_cases hp : levelNonempty levels p
    · right
      refine ⟨p, by simp [scanHeap, hp], levelNonempty_iff.mp hp, fun q hq => ?_⟩
      rcases List.mem_cons.mp (hc q hq) with h1 | h1
      · exact le_of_eq h1.symm
      · exact (List.pairwise_cons.mp hs).1 q h1
    · have hpe : levelAt levels p = [] := by
        by_contra h2
        exact hp (levelNonempty_iff.mpr h2)
      have hc' : ∀ q, levelAt levels q ≠ [] → q ∈ rest := by
        intro q hq
        rcases List.mem_cons.mp (hc q hq) with h1 | h1
        · subst h1; exact absurd hpe hq
        · exact h1
      simpa only [scanHeap, if_neg hp] using ih (List.pairwise_cons.mp hs).2 hc'

/-! ### Invariant preservation -/

theorem Inv_empty (sid : ℤ) (sym : String) : Inv (emptyBook sid sym) := by
  refine ⟨?_, ?_, ?_, ?_, ?_, ?_, ?_, ?_, ?_, ?_, ?_, ?_⟩ <;>
    simp [emptyBook, entryB, entryA, levelAt]

theorem entryB_none_of_no_order {b : OrderBook} (hInv : Inv b) {oid : ℕ}
    (h : alookup oid b.orders = none) (p : ℚ) : entryB b p oid = none := by
  cases h2 : entryB b p oid with
  | none => rfl
  | some s =>
    obtain ⟨o, ho, -⟩ := hInv.orderOfEntryB p oid s h2
    rw [h] at ho
    exact absurd ho (by simp)

theorem entryA_none_of_no_order {b : OrderBook} (hInv : Inv b) {oid : ℕ}
    (h : alookup oid b.orders = none) (p : ℚ) : entryA b p oid = none := by
  cases h2 : entryA b p oid with
  | none => rfl
  | some s =>
    obtain ⟨o, ho, -⟩ := hInv.orderOfEntryA p oid s h2
    rw [h] at ho
    exact absurd ho (by simp)

theorem alookup_aset_cases {κ β : Type} [DecidableEq κ] (k k' : κ) (v : β)
    (l : List (κ × β)) :
    alookup k' (aset k v l) = if k = k' then some v else alookup k' l := by
  by_cases h : k = k'
  · subst h
    simp [alookup_aset_self]
  · simp [h, alookup_aset_ne _ _ _ _ h]

theorem alookup_aerase_cases {κ β : Type} [DecidableEq κ] (k k' : κ)
    {l : List (κ × β)} (hnd : (akeys l).Nodup) :
    alookup k' (aerase k l) = if k = k' then none else alookup k' l := by
  by_cases h : k = k'
  · subst h
    simp [alookup_aerase_self _ hnd]
  · simp [h, alookup_aerase_ne _ _ _ h]

theorem Inv_delete {b : OrderBook} (hInv : Inv b) (oid : ℕ) (ts : ℤ) :
    Inv (delete_order oid ts b) := by
  rcases h : alookup oid b.orders with _ | o
  · simpa [delete_order, h] using hInv
  · by_cases hs : o.side = "BID"
    · simp only [delete_order, h, if_pos hs]
      have hon : ∀ oid₂, alookup oid₂ (aerase oid b.orders) =
          if oid = oid₂ then none else alookup oid₂ b.orders :=
        fun oid₂ => alookup_aerase_cases _ _ hInv.ordersNodup
      have chainB : ∀ p' oid',
          alookup oid' (levelAt (popFromLevel b.bid_levels o.price oid) p') =
          if o.price = p' ∧ oid = oid' then none else entryB b p' oid' :=
        fun p' oid' => entry_popFromLevel hInv.bidInnerNodup _ _ _ _
      refine ⟨nodup_akeys_aerase _ hInv.ordersNodup,
        keys_nodup_popFromLevel _ _ hInv.bidKeysNodup,
        hInv.askKeysNodup,
        inner_nodup_popFromLevel _ _ hInv.bidInnerNodup,
        hInv.askInnerNodup, ?_, ?_, ?_, ?_, ?_,
        hInv.bidSorted, hInv.askSorted⟩
      · intro oid₂ o₂ ho₂
        rw [hon oid₂] at ho₂
        by_cases h2 : oid = oid₂
        · rw [if_pos h2] at ho₂
          exact absurd ho₂ (by simp)
        · rw [if_neg h2] at ho₂
          obtain ⟨hB, hA⟩ := hInv.entryOfOrder oid₂ o₂ ho₂
          refine ⟨fun p => ?_, hA⟩
          show alookup oid₂ (levelAt (popFromLevel b.bid_levels o.price oid) p) = _
          rw [chainB p oid₂, if_neg (by tauto), hB p]
        -- ask side is untouched: `entryA` of the new record is `entryA b`
      · intro p' oid' s hsE
        have hsE2 : alookup oid'
            (levelAt (popFromLevel b.bid_levels o.price oid) p') = some s := hsE
        rw [chainB p' oid'] at hsE2
        by_cases h2 : o.price = p' ∧ oid = oid'
        · rw [if_pos h2] at hsE2
          exact absurd hsE2 (by simp)
        · rw [if_neg h2] at hsE2
          obtain ⟨o₂, ho₂, hside, hprice, hsize⟩ := hInv.orderOfEntryB p' oid' s hsE2
          refine ⟨o₂, ?_, hside, hprice, hsize⟩
          rw [hon oid']
          have : oid ≠ oid' := by
            intro he
            subst he
            rw [h] at ho₂
            have h3 : o = o₂ := by injection ho₂
            subst h3
            exact h2 ⟨hprice, rfl⟩
          rw [if_neg this]
          exact ho₂
      · intro p' oid' s hsE
        obtain ⟨o₂, ho₂, hside, hprice, hsize⟩ := hInv.orderOfEntryA p' oid' s hsE
        refine ⟨o₂, ?_, hside, hprice, hsize⟩
        rw [hon oid']
        have : oid ≠ oid' := by
          intro he
          subst he
          rw [h] at ho₂
          have h3 : o = o₂ := by injection ho₂
          subst h3
          exact hside hs
        rw [if_neg this]
        exact ho₂
      · intro p' hne
        exact hInv.bidComplete p' (aerase_subset_levelAt hne)
      · exact hInv.askComplete
    · simp only [delete_order, h, if_neg hs]
      have hon : ∀ oid₂, alookup oid₂ (aerase oid b.orders) =
          if oid = oid₂ then none else alookup oid₂ b.orders :=
        fun oid₂ => alookup_aerase_cases _ _ hInv.ordersNodup
      have chainA : ∀ p' oid',
          alookup oid' (levelAt (popFromLevel b.ask_levels o.price oid) p') =
          if o.price = p' ∧ oid = oid' then none else entryA b p' oid' :=
        fun p' oid' => entry_popFromLevel hInv.askInnerNodup _ _ _ _
      refine ⟨nodup_akeys_aerase _ hInv.ordersNodup,
        hInv.bidKeysNodup,
        keys_nodup_popFromLevel _ _ hInv.askKeysNodup,
        hInv.bidInnerNodup,
        inner_nodup_popFromLevel _ _ hInv.askInnerNodup,
        ?_, ?_, ?_, ?_, ?_,
        hInv.bidSorted, hInv.askSorted⟩
      · intro oid₂ o₂ ho₂
        rw [hon oid₂] at ho₂
        by_cases h2 : oid = oid₂
        · rw [if_pos h2] at ho₂
          exact absurd ho₂ (by simp)
        · rw [if_neg h2] at ho₂
          obtain ⟨hB, hA⟩ := hInv.entryOfOrder oid₂ o₂ ho₂
          refine ⟨hB, fun p => ?_⟩
          show alookup oid₂ (levelAt (popFromLevel b.ask_levels o.price oid) p) = _
          rw [chainA p oid₂, if_neg (by tauto), hA p]
      · intro p' oid' s hsE
        obtain ⟨o₂, ho₂, hside, hprice, hsize⟩ := hInv.orderOfEntryB p' oid' s hsE
        refine ⟨o₂, ?_, hside, hprice, hsize⟩
        rw [hon oid']
        have : oid ≠ oid' := by
          intro he
          subst he
          rw [h] at ho₂
          have h3 : o = o₂ := by injection ho₂
          subst h3
          exact hs hside
        rw [if_neg this]
        exact ho₂
      · intro p' oid' s hsE
        have hsE2 : alookup oid'
            (levelAt (popFromLevel b.ask_levels o.price oid) p') = some s := hsE
        rw [chainA p' oid'] at hsE2
        by_cases h2 : o.price = p' ∧ oid = oid'
        · rw [if_pos h2] at hsE2
          exact absurd hsE2 (by simp)
        · rw [if_neg h2] at hsE2
          obtain ⟨o₂, ho₂, hside, hprice, hsize⟩ := hInv.orderOfEntryA p' oid' s hsE2
          refine ⟨o₂, ?_, hside, hprice, hsize⟩
          rw [hon oid']
          have : oid ≠ oid' := by
            intro he
            subst he
            rw [h] at ho₂
            have h3 : o = o₂ := by injection ho₂
            subst h3
            exact h2 ⟨hprice, rfl⟩
          rw [if_neg this]
          exact ho₂
      · exact hInv.bidComplete
      · intro p' hne
        exact hInv.askComplete p' (aerase_subset_levelAt hne)

theorem Inv_modify {b : OrderBook} (hInv : Inv b) (oid : ℕ) (np : ℚ) (ns : ℤ)
    (ts : ℤ) : Inv (modify_order oid np ns ts b) := by
  rcases h : alookup oid b.orders with _ | o
  · simpa [modify_order, h] using hInv
  · by_cases hs : o.side = "BID"
    · simp only [modify_order, h, if_pos hs]
      have hon : ∀ oid₂, alookup oid₂ (aset oid
          { o with price := np, size := ns, timestamp_ns := ts } b.orders) =
          if oid = oid₂ then
            some { o with price := np, size := ns, timestamp_ns := ts }
          else alookup oid₂ b.orders := fun oid₂ => alookup_aset_cases _ _ _ _
      have chainB : ∀ p' oid', alookup oid'
          (levelAt (setLevel (popFromLevel b.bid_levels o.price oid) np oid ns) p') =
          if np = p' ∧ oid = oid' then some ns
          else if o.price = p' ∧ oid = oid' then none
          else entryB b p' oid' := by
        intro p' oid'
        rw [entry_setLevel, entry_popFromLevel hInv.bidInnerNodup]
        rfl
      refine ⟨nodup_akeys_aset _ _ hInv.ordersNodup,
        keys_nodup_setLevel _ _ _ (keys_nodup_popFromLevel _ _ hInv.bidKeysNodup),
        hInv.askKeysNodup,
        inner_nodup_setLevel _ _ _ (inner_nodup_popFromLevel _ _ hInv.bidInnerNodup),
        hInv.askInnerNodup, ?_, ?_, ?_, ?_, hInv.askComplete, ?_, hInv.askSorted⟩
      · intro oid₂ o₂ ho₂
        rw [hon oid₂] at ho₂
        by_cases h2 : oid = oid₂
        · rw [if_pos h2] at ho₂
          have ho₂2 : { o with price := np, size := ns, timestamp_ns := ts } = o₂ := by
            injection ho₂
          subst h2
          refine ⟨fun p => ?_, fun p => ?_⟩
          · show alookup oid
              (levelAt (setLevel (popFromLevel b.bid_levels o.price oid) np oid ns) p) = _
            rw [chainB p oid, ← ho₂2]
            by_cases hp : np = p
            · simp [hp, hs]
            · rw [if_neg (by tauto)]
              by_cases hop : o.price = p
              · rw [if_pos ⟨hop, rfl⟩]
                simp [hs, Ne.symm hp]
              · rw [if_neg (by tauto)]
                obtain ⟨hB, -⟩ := hInv.entryOfOrder oid o h
                rw [hB p]
                simp [hs, Ne.symm hp, show ¬p = o.price from fun h3 => hop h3.symm]
          · show entryA b p oid = _
            obtain ⟨-, hA⟩ := hInv.entryOfOrder oid o h
            rw [hA p, ← ho₂2]
            simp [hs]
        · rw [if_neg h2] at ho₂
          obtain ⟨hB, hA⟩ := hInv.entryOfOrder oid₂ o₂ ho₂
          refine ⟨fun p => ?_, fun p => ?_⟩
          · show alookup oid₂
              (levelAt (setLevel (popFromLevel b.bid_levels o.price oid) np oid ns) p) = _
            rw [chainB p oid₂, if_neg (by tauto), if_neg (by tauto), hB p]
          · show entryA b p oid₂ = _
            exact hA p
      · intro p' oid' s hsE
        have hsE2 : alookup oid'
            (levelAt (setLevel (popFromLevel b.bid_levels o.price oid) np oid ns) p') =
            some s := hsE
        rw [chainB p' oid'] at hsE2
        by_cases hc1 : np = p' ∧ oid = oid'
        · rw [if_pos hc1] at hsE2
          have hns : ns = s := by injection hsE2
          refine ⟨{ o with price := np, size := ns, timestamp_ns := ts }, ?_, hs, ?_, ?_⟩
          · rw [hon oid', if_pos hc1.2]
          · exact hc1.1
          · exact hns
        · rw [if_neg hc1] at hsE2
          by_cases hc2 : o.price = p' ∧ oid = oid'
          · rw [if_pos hc2] at hsE2
            exact absurd hsE2 (by simp)
          · rw [if_neg hc2] at hsE2
            obtain ⟨o₂, ho₂, hside, hprice, hsize⟩ := hInv.orderOfEntryB p' oid' s hsE2
            have hne : oid ≠ oid' := by
              intro he
              subst he
              rw [h] at ho₂
              have h3 : o = o₂ := by injection ho₂
              subst h3
              exact hc2 ⟨hprice, rfl⟩
            exact ⟨o₂, by rw [hon oid', if_neg hne]; exact ho₂, hside, hprice, hsize⟩
      · intro p' oid' s hsE
        have hsE2 : entryA b p' oid' = some s := hsE
        obtain ⟨o₂, ho₂, hside, hprice, hsize⟩ := hInv.orderOfEntryA p' oid' s hsE2
        have hne : oid ≠ oid' := by
          intro he
          subst he
          rw [h] at ho₂
          have h3 : o = o₂ := by injection ho₂
          subst h3
          exact hside hs
        exact ⟨o₂, by rw [hon oid', if_neg hne]; exact ho₂, hside, hprice, hsize⟩
      · intro p' hne
        rw [levelAt_setLevel] at hne
        by_cases hp : np = p'
        · subst hp
          by_cases hm : levelMissing (popFromLevel b.bid_levels o.price oid) np = true
          · rw [if_pos hm]
            exact mem_insertDesc.mpr (Or.inl rfl)
          · rw [if_neg hm]
            have h3 : levelAt (popFromLevel b.bid_levels o.price oid) np ≠ [] :=
              fun he => hm (levelMissing_iff.mpr he)
            exact hInv.bidComplete np (aerase_subset_levelAt h3)
        · rw [if_neg hp] at hne
          have hmem := hInv.bidComplete p' (aerase_subset_levelAt hne)
          by_cases hm : levelMissing (popFromLevel b.bid_levels o.price oid) np = true
          · rw [if_pos hm]
            exact mem_insertDesc.mpr (Or.inr hmem)
          · rw [if_neg hm]
            exact hmem
      · by_cases hm : levelMissing (popFromLevel b.bid_levels o.price oid) np = true
        · rw [if_pos hm]
          exact sorted_insertDesc hInv.bidSorted
        · rw [if_neg hm]
          exact hInv.bidSorted
    · simp only [modify_order, h, if_neg hs]
      have hon : ∀ oid₂, alookup oid₂ (aset oid
          { o with price := np, size := ns, timestamp_ns := ts } b.orders) =
          if oid = oid₂ then
            some { o with price := np, size := ns, timestamp_ns := ts }
          else alookup oid₂ b.orders := fun oid₂ => alookup_aset_cases _ _ _ _
      have chainA : ∀ p' oid', alookup oid'
          (levelAt (setLevel (popFromLevel b.ask_levels o.price oid) np oid ns) p') =
          if np = p' ∧ oid = oid' then some ns
          else if o.price = p' ∧ oid = oid' then none
          else entryA b p' oid' := by
        intro p' oid'
        rw [entry_setLevel, entry_popFromLevel hInv.askInnerNodup]
        rfl
      refine ⟨nodup_akeys_aset _ _ hInv.ordersNodup,
        hInv.bidKeysNodup,
        keys_nodup_setLevel _ _ _ (keys_nodup_popFromLevel _ _ hInv.askKeysNodup),
        hInv.bidInnerNodup,
        inner_nodup_setLevel _ _ _ (inner_nodup_popFromLevel _ _ hInv.askInnerNodup),
        ?_, ?_, ?_, hInv.bidComplete, ?_, hInv.bidSorted, ?_⟩
      · intro oid₂ o₂ ho₂
        rw [hon oid₂] at ho₂
        by_cases h2 : oid = oid₂
        · rw [if_pos h2] at ho₂
          have ho₂2 : { o with price := np, size := ns, timestamp_ns := ts } = o₂ := by
            injection ho₂
          subst h2
          refine ⟨fun p => ?_, fun p => ?_⟩
          · show entryB b p oid = _
            obtain ⟨hB, -⟩ := hInv.entryOfOrder oid o h
            rw [hB p, ← ho₂2]
            simp [hs]
          · show alookup oid
              (levelAt (setLevel (popFromLevel b.ask_levels o.price oid) np oid ns) p) = _
            rw [chainA p oid, ← ho₂2]
            by_cases hp : np = p
            · simp [hp, hs]
            · rw [if_neg (by tauto)]
              by_cases hop : o.price = p
              · rw [if_pos ⟨hop, rfl⟩]
                simp [hs, Ne.symm hp]
              · rw [if_neg (by tauto)]
                obtain ⟨-, hA⟩ := hInv.entryOfOrder oid o h
                rw [hA p]
                simp [hs, Ne.symm hp, show ¬p = o.price from fun h3 => hop h3.symm]
        · rw [if_neg h2] at ho₂
          obtain ⟨hB, hA⟩ := hInv.entryOfOrder oid₂ o₂ ho₂
          refine ⟨fun p => ?_, fun p => ?_⟩
          · show entryB b p oid₂ = _
            exact hB p
          · show alookup oid₂
              (levelAt (setLevel (popFromLevel b.ask_levels o.price oid) np oid ns) p) = _
            rw [chainA p oid₂, if_neg (by tauto), if_neg (by tauto), hA p]
      · intro p' oid' s hsE
        have hsE2 : entryB b p' oid' = some s := hsE
        obtain ⟨o₂, ho₂, hside, hprice, hsize⟩ := hInv.orderOfEntryB p' oid' s hsE2
        have hne : oid ≠ oid' := by
          intro he
          subst he
          rw [h] at ho₂
          have h3 : o = o₂ := by injection ho₂
          subst h3
          exact hs hside
        exact ⟨o₂, by rw [hon oid', if_neg hne]; exact ho₂, hside, hprice, hsize⟩
      · intro p' oid' s hsE
        have hsE2 : alookup oid'
            (levelAt (setLevel (popFromLevel b.ask_levels o.price oid) np oid ns) p') =
            some s := hsE
        rw [chainA p' oid'] at hsE2
        by_cases hc1 : np = p' ∧ oid = oid'
        · rw [if_pos hc1] at hsE2
          have hns : ns = s := by injection hsE2
          refine ⟨{ o with price := np, size := ns, timestamp_ns := ts }, ?_, hs, ?_, ?_⟩
          · rw [hon oid', if_pos hc1.2]
          · exact hc1.1
          · exact hns
        · rw [if_neg hc1] at hsE2
          by_cases hc2 : o.price = p' ∧ oid = oid'
          · rw [if_pos hc2] at hsE2
            exact absurd hsE2 (by simp)
          · rw [if_neg hc2] at hsE2
            obtain ⟨o₂, ho₂, hside, hprice, hsize⟩ := hInv.orderOfEntryA p' oid' s hsE2
            have hne : oid ≠ oid' := by
              intro he
              subst he
              rw [h] at ho₂
              have h3 : o = o₂ := by injection ho₂
              subst h3
              exact hc2 ⟨hprice, rfl⟩
            exact ⟨o₂, by rw [hon oid', if_neg hne]; exact ho₂, hside, hprice, hsize⟩
      · intro p' hne
        rw [levelAt_setLevel] at hne
        by_cases hp : np = p'
        · subst hp
          by_cases hm : levelMissing (popFromLevel b.ask_levels o.price oid) np = true
          · rw [if_pos hm]
            exact mem_insertAsc.mpr (Or.inl rfl)
          · rw [if_neg hm]
            have h3 : levelAt (popFromLevel b.ask_levels o.price oid) np ≠ [] :=
              fun he => hm (levelMissing_iff.mpr he)
            exact hInv.askComplete np (aerase_subset_levelAt h3)
        · rw [if_neg hp] at hne
          have hmem := hInv.askComplete p' (aerase_subset_levelAt hne)
          by_cases hm : levelMissing (popFromLevel b.ask_levels o.price oid) np = true
          · rw [if_pos hm]
            exact mem_insertAsc.mpr (Or.inr hmem)
          · rw [if_neg hm]
            exact hmem
      · by_cases hm : levelMissing (popFromLevel b.ask_levels o.price oid) np = true
        · rw [if_pos hm]
          exact sorted_insertAsc hInv.askSorted
        · rw [if_neg hm]
          exact hInv.askSorted

theorem Inv_add {b : OrderBook} (hInv : Inv b) (oid : ℕ) (p : ℚ) (s : ℤ)
    (sd : String) (ts : ℤ) : Inv (add_order oid p s sd ts b) := by
  by_cases h : (alookup oid b.orders).isSome = true
  · simp only [add_order, if_pos h]
    exact Inv_modify hInv oid p s ts
  · have h0 : alookup oid b.orders = none := by
      cases h2 : alookup oid b.orders with
      | none => rfl
      | some o => rw [h2] at h; exact absurd rfl h
    simp only [add_order, if_neg h]
    have hnoneB := entryB_none_of_no_order hInv h0
    have hnoneA := entryA_none_of_no_order hInv h0
    have hon : ∀ oid₂, alookup oid₂ (aset oid
        { order_id := oid, price := p, size := s, side := sd,
          timestamp_ns := ts } b.orders) =
        if oid = oid₂ then
          some { order_id := oid, price := p, size := s, side := sd,
                 timestamp_ns := ts }
        else alookup oid₂ b.orders := fun oid₂ => alookup_aset_cases _ _ _ _
    by_cases hsd : sd = "BID"
    · rw [if_pos hsd]
      have chainB : ∀ p' oid', alookup oid'
          (levelAt (setLevel b.bid_levels p oid s) p') =
          if p = p' ∧ oid = oid' then some s else entryB b p' oid' := by
        intro p' oid'
        rw [entry_setLevel]
        rfl
      refine ⟨nodup_akeys_aset _ _ hInv.ordersNodup,
        keys_nodup_setLevel _ _ _ hInv.bidKeysNodup,
        hInv.askKeysNodup,
        inner_nodup_setLevel _ _ _ hInv.bidInnerNodup,
        hInv.askInnerNodup, ?_, ?_, ?_, ?_, hInv.askComplete, ?_, hInv.askSorted⟩
      · intro oid₂ o₂ ho₂
        rw [hon oid₂] at ho₂
        by_cases h2 : oid = oid₂
        · rw [if_pos h2] at ho₂
          injection ho₂ with h3
          subst h3
          subst h2
          refine ⟨fun p' => ?_, fun p' => ?_⟩
          · show alookup oid (levelAt (setLevel b.bid_levels p oid s) p') = _
            rw [chainB p' oid]
            by_cases hp : p = p'
            · simp [hp, hsd]
            · rw [if_neg (by tauto), hnoneB p']
              simp [hsd, Ne.symm hp]
          · show entryA b p' oid = _
            rw [hnoneA p']
            simp [hsd]
        · rw [if_neg h2] at ho₂
          obtain ⟨hB, hA⟩ := hInv.entryOfOrder oid₂ o₂ ho₂
          refine ⟨fun p' => ?_, fun p' => ?_⟩
          · show alookup oid₂ (levelAt (setLevel b.bid_levels p oid s) p') = _
            rw [chainB p' oid₂, if_neg (by tauto), hB p']
          · show entryA b p' oid₂ = _
            exact hA p'
      · intro p' oid' s₂ hsE
        have hsE2 : alookup oid' (levelAt (setLevel b.bid_levels p oid s) p') =
            some s₂ := hsE
        rw [chainB p' oid'] at hsE2
        by_cases hc1 : p = p' ∧ oid = oid'
        · rw [if_pos hc1] at hsE2
          have hss : s = s₂ := by injection hsE2
          refine ⟨⟨oid, p, s, sd, ts⟩, ?_, hsd, hc1.1, hss⟩
          rw [hon oid', if_pos hc1.2]
        · rw [if_neg hc1] at hsE2
          obtain ⟨o₂, ho₂, hside, hprice, hsize⟩ := hInv.orderOfEntryB p' oid' s₂ hsE2
          have hne : oid ≠ oid' := by
            intro he
            subst he
            rw [hnoneB p'] at hsE2
            exact absurd hsE2 (by simp)
          exact ⟨o₂, by rw [hon oid', if_neg hne]; exact ho₂, hside, hprice, hsize⟩
      · intro p' oid' s₂ hsE
        have hsE2 : entryA b p' oid' = some s₂ := hsE
        obtain ⟨o₂, ho₂, hside, hprice, hsize⟩ := hInv.orderOfEntryA p' oid' s₂ hsE2
        have hne : oid ≠ oid' := by
          intro he
          subst he
          rw [hnoneA p'] at hsE2
          exact absurd hsE2 (by simp)
        exact ⟨o₂, by rw [hon oid', if_neg hne]; exact ho₂, hside, hprice, hsize⟩
      · intro p' hne
        rw [levelAt_setLevel] at hne
        by_cases hp : p = p'
        · subst hp
          by_cases hm : levelMissing b.bid_levels p = true
          · rw [if_pos hm]
            exact mem_insertDesc.mpr (Or.inl rfl)
          · rw [if_neg hm]
            exact hInv.bidComplete p (fun he => hm (levelMissing_iff.mpr he))
        · rw [if_neg hp] at hne
          have hmem := hInv.bidComplete p' hne
          by_cases hm : levelMissing b.bid_levels p = true
          · rw [if_pos hm]
            exact mem_insertDesc.mpr (Or.inr hmem)
          · rw [if_neg hm]
            exact hmem
      · by_cases hm : levelMissing b.bid_levels p = true
        · rw [if_pos hm]
          exact sorted_insertDesc hInv.bidSorted
        · rw [if_neg hm]
          exact hInv.bidSorted
    · rw [if_neg hsd]
      have chainA : ∀ p' oid', alookup oid'
          (levelAt (setLevel b.ask_levels p oid s) p') =
          if p = p' ∧ oid = oid' then some s else entryA b p' oid' := by
        intro p' oid'
        rw [entry_setLevel]
        rfl
      refine ⟨nodup_akeys_aset _ _ hInv.ordersNodup,
        hInv.bidKeysNodup,
        keys_nodup_setLevel _ _ _ hInv.askKeysNodup,
        hInv.bidInnerNodup,
        inner_nodup_setLevel _ _ _ hInv.askInnerNodup,
        ?_, ?_, ?_, hInv.bidComplete, ?_, hInv.bidSorted, ?_⟩
      · intro oid₂ o₂ ho₂
        rw [hon oid₂] at ho₂
        by_cases h2 : oid = oid₂
        · rw [if_pos h2] at ho₂
          injection ho₂ with h3
          subst h3
          subst h2
          refine ⟨fun p' => ?_, fun p' => ?_⟩
          · show entryB b p' oid = _
            rw [hnoneB p']
            simp [hsd]
          · show alookup oid (levelAt (setLevel b.ask_levels p oid s) p') = _
            rw [chainA p' oid]
            by_cases hp : p = p'
            · simp [hp, hsd]
            · rw [if_neg (by tauto), hnoneA p']
              simp [hsd, Ne.symm hp]
        · rw [if_neg h2] at ho₂
          obtain ⟨hB, hA⟩ := hInv.entryOfOrder oid₂ o₂ ho₂
          refine ⟨fun p' => ?_, fun p' => ?_⟩
          · show entryB b p' oid₂ = _
            exact hB p'
          · show alookup oid₂ (levelAt (setLevel b.ask_levels p oid s) p') = _
            rw [chainA p' oid₂, if_neg (by tauto), hA p']
      · intro p' oid' s₂ hsE
        have hsE2 : entryB b p' oid' = some s₂ := hsE
        obtain ⟨o₂, ho₂, hside, hprice, hsize⟩ := hInv.orderOfEntryB p' oid' s₂ hsE2
        have hne : oid ≠ oid' := by
          intro he
          subst he
          rw [hnoneB p'] at hsE2
          exact absurd hsE2 (by simp)
        exact ⟨o₂, by rw [hon oid', if_neg hne]; exact ho₂, hside, hprice, hsize⟩
      · intro p' oid' s₂ hsE
        have hsE2 : alookup oid' (levelAt (setLevel b.ask_levels p oid s) p') =
            some s₂ := hsE
        rw [chainA p' oid'] at hsE2
        by_cases hc1 : p = p' ∧ oid = oid'
        · rw [if_pos hc1] at hsE2
          have hss : s = s₂ := by injection hsE2
          refine ⟨⟨oid, p, s, sd, ts⟩, ?_, hsd, hc1.1, hss⟩
          rw [hon oid', if_pos hc1.2]
        · rw [if_neg hc1] at hsE2
          obtain ⟨o₂, ho₂, hside, hprice, hsize⟩ := hInv.orderOfEntryA p' oid' s₂ hsE2
          have hne : oid ≠ oid' := by
            intro he
            subst he
            rw [hnoneA p'] at hsE2
            exact absurd hsE2 (by simp)
          exact ⟨o₂, by rw [hon oid', if_neg hne]; exact ho₂, hside, hprice, hsize⟩
      · intro p' hne
        rw [levelAt_setLevel] at hne
        by_cases hp : p = p'
        · subst hp
          by_cases hm : levelMissing b.ask_levels p = true
          · rw [if_pos hm]
            exact mem_insertAsc.mpr (Or.inl rfl)
          · rw [if_neg hm]
            exact hInv.askComplete p (fun he => hm (levelMissing_iff.mpr he))
        · rw [if_neg hp] at hne
          have hmem := hInv.askComplete p' hne
          by_cases hm : levelMissing b.ask_levels p = true
          · rw [if_pos hm]
            exact mem_insertAsc.mpr (Or.inr hmem)
          · rw [if_neg hm]
            exact hmem
      · by_cases hm : levelMissing b.ask_levels p = true
        · rw [if_pos hm]
          exact sorted_insertAsc hInv.askSorted
        · rw [if_neg hm]
          exact hInv.askSorted

theorem Inv_purgeBid {b : OrderBook} (hInv : Inv b) : Inv (get_best_bid b).1 := by
  refine ⟨hInv.ordersNodup, hInv.bidKeysNodup, hInv.askKeysNodup,
    hInv.bidInnerNodup, hInv.askInnerNodup, hInv.entryOfOrder,
    hInv.orderOfEntryB, hInv.orderOfEntryA, ?_, hInv.askComplete, ?_,
    hInv.askSorted⟩
  · intro p hne
    exact scanHeap_keeps b.bid_levels (hInv.bidComplete p hne) hne
  · exact hInv.bidSorted.sublist (scanHeap_sublist b.bid_levels b.bid_prices)

theorem Inv_purgeAsk {b : OrderBook} (hInv : Inv b) : Inv (get_best_ask b).1 := by
  refine ⟨hInv.ordersNodup, hInv.bidKeysNodup, hInv.askKeysNodup,
    hInv.bidInnerNodup, hInv.askInnerNodup, hInv.entryOfOrder,
    hInv.orderOfEntryB, hInv.orderOfEntryA, hInv.bidComplete, ?_,
    hInv.bidSorted, ?_⟩
  · intro p hne
    exact scanHeap_keeps b.ask_levels (hInv.askComplete p hne) hne
  · exact hInv.askSorted.sublist (scanHeap_sublist b.ask_levels b.ask_prices)

theorem Inv_applyOp {b : OrderBook} (hInv : Inv b) (op : BookOp) :
    Inv (applyOp b op) := by
  cases op with
  | add oid p s sd ts => exact Inv_add hInv oid p s sd ts
  | modify oid p s ts => exact Inv_modify hInv oid p s ts
  | delete oid ts => exact Inv_delete hInv oid ts
  | queryBid => exact Inv_purgeBid hInv
  | queryAsk => exact Inv_purgeAsk hInv

theorem Inv_applyOps {b : OrderBook} (hInv : Inv b) (ops : List BookOp) :
    Inv (applyOps b ops) := by
  induction ops generalizing b with
  | nil => exact hInv
  | cons op rest ih => exact ih (Inv_applyOp hInv op)

theorem Inv_reachable {b : OrderBook} (h : Reachable b) : Inv b := by
  obtain ⟨sid, sym, ops, rfl⟩ := h
  exact Inv_applyOps (Inv_empty sid sym) ops

/-! ### Queries return the specified best prices -/

theorem alist_perm_of_lookup_eq {κ β : Type} [DecidableEq κ]
    {l₁ l₂ : List (κ × β)} (h₁ : (akeys l₁).Nodup) (h₂ : (akeys l₂).Nodup)
    (h : ∀ k, alookup k l₁ = alookup k l₂) : l₁.Perm l₂ := by
  refine (List.perm_ext_iff_of_nodup (List.Nodup.of_map _ h₁)
    (List.Nodup.of_map _ h₂)).mpr ?_
  rintro ⟨k, v⟩
  constructor
  · intro hm
    exact alookup_eq_some_mem ((h k) ▸ mem_alookup_of_nodup h₁ hm)
  · intro hm
    exact alookup_eq_some_mem ((h k).symm ▸ mem_alookup_of_nodup h₂ hm)

theorem alookup_filter_size {l : List (ℕ × Order)} (hnd : (akeys l).Nodup)
    (pr : Order → Prop) [DecidablePred pr] (oid : ℕ) :
    alookup oid ((l.filter fun x => decide (pr x.2)).map fun x => (x.1, x.2.size)) =
      match alookup oid l with
      | some o => if pr o then some o.size else none
      | none => none := by
  induction l with
  | nil => rfl
  | cons hd tl ih =>
    obtain ⟨k, o⟩ := hd
    rw [akeys_cons] at hnd
    have hnd1 := (List.nodup_cons.mp hnd).1
    have hnd2 := (List.nodup_cons.mp hnd).2
    by_cases hpr : pr o
    · rw [List.filter_cons_of_pos (by simpa using hpr), List.map_cons]
      by_cases hk : k = oid
      · subst hk
        simp [alookup_cons, hpr]
      · rw [alookup_cons, if_neg hk, alookup_cons, if_neg hk]
        exact ih hnd2
    · rw [List.filter_cons_of_neg (by simpa using hpr)]
      by_cases hk : k = oid
      · subst hk
        rw [ih hnd2, alookup_cons, if_pos rfl]
        rw [alookup_eq_none_of_not_mem hnd1]
        simp [hpr]
      · rw [alookup_cons, if_neg hk]
        exact ih hnd2

theorem alookup_bidOrdersAt {b : OrderBook} (hInv : Inv b) (p : ℚ) (oid : ℕ) :
    alookup oid (bidOrdersAt b p) =
      match alookup oid b.orders with
      | some o => if o.side = "BID" ∧ o.price = p then some o.size else none
      | none => none :=
  alookup_filter_size hInv.ordersNodup (fun o => o.side = "BID" ∧ o.price = p) oid

theorem alookup_askOrdersAt {b : OrderBook} (hInv : Inv b) (p : ℚ) (oid : ℕ) :
    alookup oid (askOrdersAt b p) =
      match alookup oid b.orders with
      | some o => if ¬o.side = "BID" ∧ o.price = p then some o.size else none
      | none => none :=
  alookup_filter_size hInv.ordersNodup (fun o => ¬o.side = "BID" ∧ o.price = p) oid

theorem bidLevel_lookup_eq {b : OrderBook} (hInv : Inv b) (p : ℚ) (oid : ℕ) :
    alookup oid (levelAt b.bid_levels p) = alookup oid (bidOrdersAt b p) := by
  rw [alookup_bidOrdersAt hInv]
  cases h : alookup oid b.orders with
  | none =>
    have := entryB_none_of_no_order hInv h p
    exact this
  | some o =>
    obtain ⟨hB, -⟩ := hInv.entryOfOrder oid o h
    have := hB p
    rw [show entryB b p oid = alookup oid (levelAt b.bid_levels p) from rfl] at this
    rw [this]
    show (if o.side = "BID" ∧ p = o.price then some o.size else none) =
      (if o.side = "BID" ∧ o.price = p then some o.size else none)
    by_cases hc : o.side = "BID" ∧ o.price = p
    · rw [if_pos ⟨hc.1, hc.2.symm⟩, if_pos hc]
    · rw [if_neg (fun h2 => hc ⟨h2.1, h2.2.symm⟩), if_neg hc]

theorem askLevel_lookup_eq {b : OrderBook} (hInv : Inv b) (p : ℚ) (oid : ℕ) :
    alookup oid (levelAt b.ask_levels p) = alookup oid (askOrdersAt b p) := by
  rw [alookup_askOrdersAt hInv]
  cases h : alookup oid b.orders with
  | none =>
    have := entryA_none_of_no_order hInv h p
    exact this
  | some o =>
    obtain ⟨-, hA⟩ := hInv.entryOfOrder oid o h
    have := hA p
    rw [show entryA b p oid = alookup oid (levelAt b.ask_levels p) from rfl] at this
    rw [this]
    show (if ¬o.side = "BID" ∧ p = o.price then some o.size else none) =
      (if ¬o.side = "BID" ∧ o.price = p then some o.size else none)
    by_cases hc : ¬o.side = "BID" ∧ o.price = p
    · rw [if_pos ⟨hc.1, hc.2.symm⟩, if_pos hc]
    · rw [if_neg (fun h2 => hc ⟨h2.1, h2.2.symm⟩), if_neg hc]

theorem akeys_bidOrdersAt_nodup {b : OrderBook} (hInv : Inv b) (p : ℚ) :
    (akeys (bidOrdersAt b p)).Nodup := by
  have h1 : akeys (bidOrdersAt b p) =
      (b.orders.filter fun x => decide (x.2.side = "BID" ∧ x.2.price = p)).map
        Prod.fst := by
    unfold bidOrdersAt akeys
    rw [List.map_map]
    rfl
  rw [h1]
  exact hInv.ordersNodup.sublist ((List.filter_sublist b.orders).map Prod.fst)

theorem akeys_askOrdersAt_nodup {b : OrderBook} (hInv : Inv b) (p : ℚ) :
    (akeys (askOrdersAt b p)).Nodup := by
  have h1 : akeys (askOrdersAt b p) =
      (b.orders.filter fun x => decide (¬x.2.side = "BID" ∧ x.2.price = p)).map
        Prod.fst := by
    unfold askOrdersAt akeys
    rw [List.map_map]
    rfl
  rw [h1]
  exact hInv.ordersNodup.sublist ((List.filter_sublist b.orders).map Prod.fst)

theorem bidSum_eq {b : OrderBook} (hInv : Inv b) (p : ℚ) :
    levelSum (levelAt b.bid_levels p) = levelSum (bidOrdersAt b p) := by
  have hperm : (levelAt b.bid_levels p).Perm (bidOrdersAt b p) :=
    alist_perm_of_lookup_eq (nodup_levelAt hInv.bidInnerNodup p)
      (akeys_bidOrdersAt_nodup hInv p) (bidLevel_lookup_eq hInv p)
  exact (hperm.map Prod.snd).sum_eq

theorem askSum_eq {b : OrderBook} (hInv : Inv b) (p : ℚ) :
    levelSum (levelAt b.ask_levels p) = levelSum (askOrdersAt b p) := by
  have hperm : (levelAt b.ask_levels p).Perm (askOrdersAt b p) :=
    alist_perm_of_lookup_eq (nodup_levelAt hInv.askInnerNodup p)
      (akeys_askOrdersAt_nodup hInv p) (askLevel_lookup_eq hInv p)
  exact (hperm.map Prod.snd).sum_eq

theorem mem_bidPricesOf_iff {b : OrderBook} (hInv : Inv b) (p : ℚ) :
    p ∈ bidPricesOf b ↔ levelAt b.bid_levels p ≠ [] := by
  constructor
  · intro hm
    obtain ⟨x, hx, hxp⟩ := List.mem_map.mp hm
    obtain ⟨hxo, hxs⟩ := List.mem_filter.mp hx
    have hside : x.2.side = "BID" := by simpa using hxs
    have hlook : alookup x.1 b.orders = some x.2 :=
      mem_alookup_of_nodup hInv.ordersNodup hxo
    obtain ⟨hB, -⟩ := hInv.entryOfOrder x.1 x.2 hlook
    have := hB p
    rw [if_pos ⟨hside, hxp.symm⟩] at this
    exact levelAt_ne_nil_of_lookup this
  · intro hne
    obtain ⟨⟨oid, s⟩, hmem⟩ := List.exists_mem_of_ne_nil _ hne
    have hlook : alookup oid (levelAt b.bid_levels p) = some s :=
      mem_alookup_of_nodup (nodup_levelAt hInv.bidInnerNodup p) hmem
    obtain ⟨o, ho, hside, hprice, -⟩ := hInv.orderOfEntryB p oid s hlook
    refine List.mem_map.mpr ⟨(oid, o), List.mem_filter.mpr
      ⟨alookup_eq_some_mem ho, by simpa using hside⟩, hprice⟩

theorem mem_askPricesOf_iff {b : OrderBook} (hInv : Inv b) (p : ℚ) :
    p ∈ askPricesOf b ↔ levelAt b.ask_levels p ≠ [] := by
  constructor
  · intro hm
    obtain ⟨x, hx, hxp⟩ := List.mem_map.mp hm
    obtain ⟨hxo, hxs⟩ := List.mem_filter.mp hx
    have hside : ¬x.2.side = "BID" := by simpa using hxs
    have hlook : alookup x.1 b.orders = some x.2 :=
      mem_alookup_of_nodup hInv.ordersNodup hxo
    obtain ⟨-, hA⟩ := hInv.entryOfOrder x.1 x.2 hlook
    have := hA p
    rw [if_pos ⟨hside, hxp.symm⟩] at this
    exact levelAt_ne_nil_of_lookup this
  · intro hne
    obtain ⟨⟨oid, s⟩, hmem⟩ := List.exists_mem_of_ne_nil _ hne
    have hlook : alookup oid (levelAt b.ask_levels p) = some s :=
      mem_alookup_of_nodup (nodup_levelAt hInv.askInnerNodup p) hmem
    obtain ⟨o, ho, hside, hprice, -⟩ := hInv.orderOfEntryA p oid s hlook
    refine List.mem_map.mpr ⟨(oid, o), List.mem_filter.mpr
      ⟨alookup_eq_some_mem ho, by simpa using hside⟩, hprice⟩

theorem get_best_bid_eq_spec {b : OrderBook} (hInv : Inv b) :
    (get_best_bid b).2 = bestBidSpec b := by
  have hq : (get_best_bid b).2 = (scanHeap b.bid_levels b.bid_prices).2 := rfl
  rcases scanHeap_answer b.bid_levels hInv.bidSorted hInv.bidComplete with
    ⟨hres, hall⟩ | ⟨p, hres, hne, hmax⟩
  · have hempty : bidPricesOf b = [] := by
      rw [List.eq_nil_iff_forall_not_mem]
      intro x hx
      exact ((mem_bidPricesOf_iff hInv x).mp hx) (hall x)
    rw [hq, hres]
    unfold bestBidSpec
    rw [show listMax (bidPricesOf b) = none from listMax_eq_none_iff.mpr hempty]
  · have hpm : p ∈ bidPricesOf b := (mem_bidPricesOf_iff hInv p).mpr hne
    cases hlm : listMax (bidPricesOf b) with
    | none =>
      rw [listMax_eq_none_iff.mp hlm] at hpm
      exact absurd hpm (List.not_mem_nil p)
    | some m =>
      have hm1 : m ∈ bidPricesOf b := listMax_mem hlm
      have hm2 : levelAt b.bid_levels m ≠ [] := (mem_bidPricesOf_iff hInv m).mp hm1
      have hmp : m = p := le_antisymm (hmax m hm2) (le_listMax hlm hpm)
      subst hmp
      rw [hq, hres]
      unfold bestBidSpec
      rw [hlm, bidSum_eq hInv]

theorem get_best_ask_eq_spec {b : OrderBook} (hInv : Inv b) :
    (get_best_ask b).2 = bestAskSpec b := by
  have hq : (get_best_ask b).2 = (scanHeap b.ask_levels b.ask_prices).2 := rfl
  rcases scanHeap_answer_asc b.ask_levels hInv.askSorted hInv.askComplete with
    ⟨hres, hall⟩ | ⟨p, hres, hne, hmin⟩
  · have hempty : askPricesOf b = [] := by
      rw [List.eq_nil_iff_forall_not_mem]
      intro x hx
      exact ((mem_askPricesOf_iff hInv x).mp hx) (hall x)
    rw [hq, hres]
    unfold bestAskSpec
    rw [show listMin (askPricesOf b) = none from listMin_eq_none_iff.mpr hempty]
  · have hpm : p ∈ askPricesOf b := (mem_askPricesOf_iff hInv p).mpr hne
    cases hlm : listMin (askPricesOf b) with
    | none =>
      rw [listMin_eq_none_iff.mp hlm] at hpm
      exact absurd hpm (List.not_mem_nil p)
    | some m =>
      have hm1 : m ∈ askPricesOf b := listMin_mem hlm
      have hm2 : levelAt b.ask_levels m ≠ [] := (mem_askPricesOf_iff hInv m).mp hm1
      have hmp : m = p := le_antisymm (listMin_le hlm hpm) (hmin m hm2)
      subst hmp
      rw [hq, hres]
      unfold bestAskSpec
      rw [hlm, askSum_eq hInv]

/-! ### Replay-loop lemmas (`parse_incremental`) -/

theorem capHit_none (c : ℕ) : capHit none c = false := rfl

theorem capHit_zero (c : ℕ) : capHit (some 0) c = false := rfl

theorem capHit_some_iff {m c : ℕ} (hm : 1 ≤ m) :
    capHit (some (m : ℤ)) c = true ↔ m ≤ c := by
  show (if (m : ℤ) = 0 then false else decide ((c : ℤ) ≥ (m : ℤ))) = true ↔ m ≤ c
  rw [if_neg (by exact_mod_cast Nat.one_le_iff_ne_zero.mp hm)]
  simp only [ge_iff_le, decide_eq_true_eq]
  exact ⟨fun h => by exact_mod_cast h, fun h => by exact_mod_cast h⟩

theorem parseLoop_count {σ α : Type} (step : σ → α → σ) {m : ℕ} (hm : 1 ≤ m) :
    ∀ (l : List α) (c : ℕ) (s : σ),
      (parseLoop step (some (m : ℤ)) c s l).2 = min l.length (m - c) := by
  intro l
  induction l with
  | nil => intro c s; simp [parseLoop]
  | cons r rest ih =>
    intro c s
    by_cases hc : capHit (some (m : ℤ)) c = true
    · have hcm : m ≤ c := (capHit_some_iff hm).mp hc
      simp [parseLoop, hc, Nat.sub_eq_zero_of_le hcm]
    · have hcm : c < m := by
        by_contra h2
        exact hc ((capHit_some_iff hm).mpr (le_of_not_lt h2))
      have hcb : capHit (some (m : ℤ)) c = false := by
        cases hcap : capHit (some (m : ℤ)) c with
        | false => rfl
        | true => exact absurd hcap hc
      simp only [parseLoop, hcb, Bool.false_eq_true, if_false, List.length_cons]
      rw [ih (c + 1) (step s r)]
      omega

theorem parseLoop_count_none {σ α : Type} (step : σ → α → σ) :
    ∀ (l : List α) (c : ℕ) (s : σ), (parseLoop step none c s l).2 = l.length := by
  intro l
  induction l with
  | nil => intro c s; rfl
  | cons r rest ih =>
    intro c s
    simp only [parseLoop, capHit_none, Bool.false_eq_true, if_false,
      List.length_cons]
    rw [ih (c + 1) (step s r)]

theorem parseLoop_count_zero {σ α : Type} (step : σ → α → σ) :
    ∀ (l : List α) (c : ℕ) (s : σ), (parseLoop step (some 0) c s l).2 = l.length := by
  intro l
  induction l with
  | nil => intro c s; rfl
  | cons r rest ih =>
    intro c s
    simp only [parseLoop, capHit_zero, Bool.false_eq_true, if_false,
      List.length_cons]
    rw [ih (c + 1) (step s r)]

theorem parseLoop_state {σ α : Type} (step : σ → α → σ) (mp : Option ℤ) :
    ∀ (l : List α) (c : ℕ) (s : σ),
      (parseLoop step mp c s l).1 =
        List.foldl step s (l.take (parseLoop step mp c s l).2) := by
  intro l
  induction l with
  | nil => intro c s; rfl
  | cons r rest ih =>
    intro c s
    by_cases hc : capHit mp c = true
    · simp [parseLoop, hc]
    · have hcb : capHit mp c = false := by
        cases hcap : capHit mp c with
        | false => rfl
        | true => exact absurd hcap hc
      simp only [parseLoop, hcb, Bool.false_eq_true, if_false]
      rw [ih (c + 1) (step s r)]
      rfl

/-! ### Claim theorems -/

/-- C1: for every finite sequence of add/modify/delete operations, the
best-bid query returns the maximum resident bid price with the summed
quantity at that price (and `(none, 0)` on an empty side), and the best-ask
query returns the minimum resident ask price with its summed quantity. -/
theorem claim_C1 (b : OrderBook) (h : Reachable b) :
    (get_best_bid b).2 = bestBidSpec b ∧ (get_best_ask b).2 = bestAskSpec b :=
  ⟨get_best_bid_eq_spec (Inv_reachable h), get_best_ask_eq_spec (Inv_reachable h)⟩

theorem claim_C1_witness :
    Reachable exBook ∧
    ((get_best_bid exBook).2 = bestBidSpec exBook ∧
     (get_best_ask exBook).2 = bestAskSpec exBook) ∧
    (get_best_bid exBook).2 = (some 100, 5) :=
  ⟨⟨7, "WDOF25", exOps, rfl⟩, claim_C1 exBook ⟨7, "WDOF25", exOps, rfl⟩, by rfl⟩

/-- C2: in every reachable state the order ids in `orders` coincide with
the ids present in the price-level mappings: a stored order has exactly one
level entry, under its recorded side and price and with its current
quantity, and an id absent from `orders` has no level entry anywhere. -/
theorem claim_C2 (b : OrderBook) (h : Reachable b) :
    (∀ oid o, alookup oid b.orders = some o →
      (∀ p, entryB b p oid =
        if o.side = "BID" ∧ p = o.price then some o.size else none) ∧
      (∀ p, entryA b p oid =
        if ¬o.side = "BID" ∧ p = o.price then some o.size else none)) ∧
    (∀ oid, alookup oid b.orders = none →
      ∀ p, entryB b p oid = none ∧ entryA b p oid = none) := by
  have hInv := Inv_reachable h
  exact ⟨hInv.entryOfOrder, fun oid hn p =>
    ⟨entryB_none_of_no_order hInv hn p, entryA_none_of_no_order hInv hn p⟩⟩

theorem claim_C2_witness :
    Reachable exBook ∧
    (∀ oid o, alookup oid exBook.orders = some o →
      (∀ p, entryB exBook p oid =
        if o.side = "BID" ∧ p = o.price then some o.size else none) ∧
      (∀ p, entryA exBook p oid =
        if ¬o.side = "BID" ∧ p = o.price then some o.size else none)) ∧
    (∀ oid, alookup oid exBook.orders = none →
      ∀ p, entryB exBook p oid = none ∧ entryA exBook p oid = none) :=
  ⟨⟨7, "WDOF25", exOps, rfl⟩,
   (claim_C2 exBook ⟨7, "WDOF25", exOps, rfl⟩).1,
   (claim_C2 exBook ⟨7, "WDOF25", exOps, rfl⟩).2⟩

/-- C5: `modify_order` and `delete_order` on an order id not present in
`orders` leave the whole book state (orders, both level mappings, both
heaps, `last_update_ns`) unchanged. -/
theorem claim_C5 (b : OrderBook) (oid : ℕ) (p : ℚ) (s ts : ℤ)
    (h : alookup oid b.orders = none) :
    modify_order oid p s ts b = b ∧ delete_order oid ts b = b := by
  constructor
  · simp [modify_order, h]
  · simp [delete_order, h]

theorem claim_C5_witness :
    alookup 999 exBook.orders = none ∧
    modify_order 999 77 1 20 exBook = exBook ∧
    delete_order 999 20 exBook = exBook :=
  ⟨by decide, (claim_C5 exBook 999 77 1 20 (by decide)).1,
   (claim_C5 exBook 999 77 1 20 (by decide)).2⟩

/-- C6: best-price queries are idempotent: a repeated query returns the
same value and the same state, a query on one side does not change the
other side's answer, queries leave `orders` and both level mappings (and
the other side's heap) unchanged, and the queried heap only loses
entries. -/
theorem claim_C6 (b : OrderBook) :
    get_best_bid (get_best_bid b).1 = get_best_bid b ∧
    get_best_ask (get_best_ask b).1 = get_best_ask b ∧
    (get_best_bid (get_best_ask b).1).2 = (get_best_bid b).2 ∧
    (get_best_ask (get_best_bid b).1).2 = (get_best_ask b).2 ∧
    (get_best_bid b).1.orders = b.orders ∧
    (get_best_bid b).1.bid_levels = b.bid_levels ∧
    (get_best_bid b).1.ask_levels = b.ask_levels ∧
    (get_best_bid b).1.ask_prices = b.ask_prices ∧
    (get_best_ask b).1.orders = b.orders ∧
    (get_best_ask b).1.bid_levels = b.bid_levels ∧
    (get_best_ask b).1.ask_levels = b.ask_levels ∧
    (get_best_ask b).1.bid_prices = b.bid_prices ∧
    (get_best_bid b).1.bid_prices.Sublist b.bid_prices ∧
    (get_best_ask b).1.ask_prices.Sublist b.ask_prices := by
  refine ⟨?_, ?_, rfl, rfl, rfl, rfl, rfl, rfl, rfl, rfl, rfl, rfl,
    scanHeap_sublist _ _, scanHeap_sublist _ _⟩
  · show get_best_bid
      { b with bid_prices := (scanHeap b.bid_levels b.bid_prices).1 } =
      get_best_bid b
    simp only [get_best_bid, scanHeap_idem]
  · show get_best_ask
      { b with ask_prices := (scanHeap b.ask_levels b.ask_prices).1 } =
      get_best_ask b
    simp only [get_best_ask, scanHeap_idem]

/-- C9: in every reachable state (queries included in the reachability
relation), every price with at least one resident order appears in its
side's heap, and a best-price query never purges such a price from the
heap. -/
theorem claim_C9 (b : OrderBook) (h : Reachable b) :
    (∀ p, levelAt b.bid_levels p ≠ [] → p ∈ b.bid_prices) ∧
    (∀ p, levelAt b.ask_levels p ≠ [] → p ∈ b.ask_prices) ∧
    (∀ p, levelAt b.bid_levels p ≠ [] → p ∈ (get_best_bid b).1.bid_prices) ∧
    (∀ p, levelAt b.ask_levels p ≠ [] → p ∈ (get_best_ask b).1.ask_prices) := by
  have hInv := Inv_reachable h
  exact ⟨hInv.bidComplete, hInv.askComplete,
    fun p hp => scanHeap_keeps _ (hInv.bidComplete p hp) hp,
    fun p hp => scanHeap_keeps _ (hInv.askComplete p hp) hp⟩

theorem claim_C9_witness :
    Reachable exBook ∧
    ((∀ p, levelAt exBook.bid_levels p ≠ [] → p ∈ exBook.bid_prices) ∧
     (∀ p, levelAt exBook.ask_levels p ≠ [] → p ∈ exBook.ask_prices) ∧
     (∀ p, levelAt exBook.bid_levels p ≠ [] →
        p ∈ (get_best_bid exBook).1.bid_prices) ∧
     (∀ p, levelAt exBook.ask_levels p ≠ [] →
        p ∈ (get_best_ask exBook).1.ask_prices)) :=
  ⟨⟨7, "WDOF25", exOps, rfl⟩, claim_C9 exBook ⟨7, "WDOF25", exOps, rfl⟩⟩

/-- C4: `add_order` on an id already in `orders` is exactly
`modify_order`, and adding the same id twice leaves only the second price
and quantity, keeps the original side, and leaves the id in exactly one
level entry. -/
theorem claim_C4 (b : OrderBook) (h : Reachable b) (oid : ℕ) (p₁ p₂ : ℚ)
    (q₁ q₂ : ℤ) (sd₂ : String) (ts₁ ts₂ : ℤ)
    (hfresh : alookup oid b.orders = none) :
    (∀ (b' : OrderBook) (p : ℚ) (q : ℤ) (sd : String) (ts : ℤ),
      (alookup oid b'.orders).isSome = true →
      add_order oid p q sd ts b' = modify_order oid p q ts b') ∧
    (alookup oid (add_order oid p₂ q₂ sd₂ ts₂
        (add_order oid p₁ q₁ "BID" ts₁ b)).orders =
      some ⟨oid, p₂, q₂, "BID", ts₂⟩) ∧
    (∀ p, entryB (add_order oid p₂ q₂ sd₂ ts₂ (add_order oid p₁ q₁ "BID" ts₁ b))
        p oid = if p = p₂ then some q₂ else none) ∧
    (∀ p, entryA (add_order oid p₂ q₂ sd₂ ts₂ (add_order oid p₁ q₁ "BID" ts₁ b))
        p oid = none) := by
  have hInv := Inv_reachable h
  have hred : ∀ (b' : OrderBook) (p : ℚ) (q : ℤ) (sd : String) (ts : ℤ),
      (alookup oid b'.orders).isSome = true →
      add_order oid p q sd ts b' = modify_order oid p q ts b' := by
    intro b' p q sd ts hsome
    simp [add_order, hsome]
  have h1 : alookup oid (add_order oid p₁ q₁ "BID" ts₁ b).orders =
      some ⟨oid, p₁, q₁, "BID", ts₁⟩ := by
    simp [add_order, hfresh, alookup_aset_self]
  have h2 : alookup oid (add_order oid p₂ q₂ sd₂ ts₂
      (add_order oid p₁ q₁ "BID" ts₁ b)).orders = some ⟨oid, p₂, q₂, "BID", ts₂⟩ := by
    rw [hred _ p₂ q₂ sd₂ ts₂ (by rw [h1]; rfl)]
    simp [modify_order, h1, alookup_aset_self]
  have hInv2 : Inv (add_order oid p₂ q₂ sd₂ ts₂ (add_order oid p₁ q₁ "BID" ts₁ b)) :=
    Inv_add (Inv_add hInv oid p₁ q₁ "BID" ts₁) oid p₂ q₂ sd₂ ts₂
  obtain ⟨hB, hA⟩ := hInv2.entryOfOrder oid _ h2
  refine ⟨hred, h2, fun p => ?_, fun p => ?_⟩
  · rw [hB p]
    simp
  · rw [hA p]
    simp

theorem claim_C4_witness :
    Reachable (emptyBook 1 "T") ∧
    alookup 5 (emptyBook 1 "T").orders = none ∧
    (add_order 5 101 7 "OFFER" 21 (add_order 5 100 6 "BID" 20 (emptyBook 1 "T")) =
      modify_order 5 101 7 21 (add_order 5 100 6 "BID" 20 (emptyBook 1 "T"))) ∧
    alookup 5 (add_order 5 101 7 "OFFER" 21
      (add_order 5 100 6 "BID" 20 (emptyBook 1 "T"))).orders =
      some ⟨5, 101, 7, "BID", 21⟩ := by
  have h := claim_C4 (emptyBook 1 "T") ⟨1, "T", [], rfl⟩ 5 100 101 6 7 "OFFER" 20 21
    (by decide)
  exact ⟨⟨1, "T", [], rfl⟩, by decide,
    h.1 (add_order 5 100 6 "BID" 20 (emptyBook 1 "T")) 101 7 "OFFER" 21 (by decide),
    h.2.1⟩

/-- C10: a fresh `add_order` inserts the order's level entry on the bid
side exactly when `side` is the string `"BID"`; any other side string
(including `"OFFER"`) lands on the ask side, and the untouched side's
mapping and heap are unchanged. -/
theorem claim_C10 (b : OrderBook) (h : Reachable b) (oid : ℕ) (p : ℚ) (s : ℤ)
    (sd : String) (ts : ℤ) (hfresh : alookup oid b.orders = none) :
    (entryB (add_order oid p s sd ts b) p oid =
      if sd = "BID" then some s else none) ∧
    (entryA (add_order oid p s sd ts b) p oid =
      if sd = "BID" then none else some s) ∧
    (sd = "BID" → (add_order oid p s sd ts b).ask_levels = b.ask_levels ∧
      (add_order oid p s sd ts b).ask_prices = b.ask_prices) ∧
    (¬sd = "BID" → (add_order oid p s sd ts b).bid_levels = b.bid_levels ∧
      (add_order oid p s sd ts b).bid_prices = b.bid_prices) ∧
    alookup oid (add_order oid p s sd ts b).orders = some ⟨oid, p, s, sd, ts⟩ := by
  have hInv := Inv_reachable h
  have hfl : (alookup oid b.orders).isSome = false := by rw [hfresh]; rfl
  by_cases hsd : sd = "BID"
  · refine ⟨?_, ?_, fun _ => ⟨?_, ?_⟩, fun hn => absurd hsd hn, ?_⟩
    · show alookup oid (levelAt (add_order oid p s sd ts b).bid_levels p) = _
      simp only [add_order, hfl, Bool.false_eq_true, if_false, if_pos hsd]
      rw [entry_setLevel, if_pos ⟨rfl, rfl⟩]
    · show alookup oid (levelAt (add_order oid p s sd ts b).ask_levels p) = _
      simp only [add_order, hfl, Bool.false_eq_true, if_false, if_pos hsd]
      exact entryA_none_of_no_order hInv hfresh p
    · simp [add_order, hfl, hsd]
    · simp [add_order, hfl, hsd]
    · simp [add_order, hfl, hsd, alookup_aset_self]
  · refine ⟨?_, ?_, fun hy => absurd hy hsd, fun _ => ⟨?_, ?_⟩, ?_⟩
    · show alookup oid (levelAt (add_order oid p s sd ts b).bid_levels p) = _
      simp only [add_order, hfl, Bool.false_eq_true, if_false, if_neg hsd]
      exact entryB_none_of_no_order hInv hfresh p
    · show alookup oid (levelAt (add_order oid p s sd ts b).ask_levels p) = _
      simp only [add_order, hfl, Bool.false_eq_true, if_false, if_neg hsd]
      rw [entry_setLevel, if_pos ⟨rfl, rfl⟩]
    · simp [add_order, hfl, hsd]
    · simp [add_order, hfl, hsd]
    · simp [add_order, hfl, hsd, alookup_aset_self]

theorem claim_C10_witness :
    Reachable exBook ∧ alookup 42 exBook.orders = none ∧
    entryA (add_order 42 60 9 "XYZ" 30 exBook) 60 42 = some 9 ∧
    (add_order 42 60 9 "XYZ" 30 exBook).bid_levels = exBook.bid_levels := by
  have h := claim_C10 exBook ⟨7, "WDOF25", exOps, rfl⟩ 42 60 9 "XYZ" 30 (by decide)
  refine ⟨⟨7, "WDOF25", exOps, rfl⟩, by decide, ?_, (h.2.2.2.1 (by decide)).1⟩
  have h2 := h.2.1
  rw [if_neg (by decide)] at h2
  exact h2

/-- C8 counterexample: with a supplied bound of 0 the loop consumes every
record (Python `if max_packets and ...` treats 0 as falsy), so it does not
consume at most 0 records. -/
theorem claim_C8_cex :
    consumedRecords (fun (s : ℕ) (r : ℕ) => s + r) (some 0) 0 [5] = 1 ∧
    ¬consumedRecords (fun (s : ℕ) (r : ℕ) => s + r) (some 0) 0 [5] ≤ 0 := by
  constructor
  · rfl
  · decide

/-- C8 (amended): for a bound `m ≥ 1` the loop consumes
`min records.length m` records (hence at most `m`); an absent bound and a
bound of 0 both consume every record; and the final state is exactly the
fold of the step function over the records actually consumed — the cap is
checked before each record, and no record is partially applied. -/
theorem claim_C8_amended {σ α : Type} (step : σ → α → σ) (s : σ)
    (records : List α) :
    (∀ m : ℕ, 1 ≤ m →
      consumedRecords step (some (m : ℤ)) s records = min records.length m ∧
      consumedRecords step (some (m : ℤ)) s records ≤ m) ∧
    consumedRecords step none s records = records.length ∧
    consumedRecords step (some 0) s records = records.length ∧
    (∀ mp, (parseLoop step mp 0 s records).1 =
      List.foldl step s (records.take (consumedRecords step mp s records))) := by
  refine ⟨fun m hm => ?_, ?_, ?_, fun mp => ?_⟩
  · have h := parseLoop_count step hm records 0 s
    rw [Nat.sub_zero] at h
    exact ⟨h, by rw [show consumedRecords step (some (m : ℤ)) s records =
      (parseLoop step (some (m : ℤ)) 0 s records).2 from rfl, h]; exact min_le_right _ _⟩
  · exact parseLoop_count_none step records 0 s
  · exact parseLoop_count_zero step records 0 s
  · exact parseLoop_state step mp records 0 s

theorem claim_C8_witness :
    (1 ≤ 2) ∧
    consumedRecords (fun (s : ℕ) (r : ℕ) => s + r) (some ((2 : ℕ) : ℤ)) 0
      [1, 2, 3] = min [1, 2, 3].length 2 :=
  ⟨by decide,
   ((claim_C8_amended (fun (s : ℕ) (r : ℕ) => s + r) 0 [1, 2, 3]).1 2 (by decide)).1⟩

/-! ### Manager-level lemmas -/

theorem get_best_bid_fix (b : OrderBook) :
    get_best_bid (get_best_bid b).1 = get_best_bid b := by
  show get_best_bid
    { b with bid_prices := (scanHeap b.bid_levels b.bid_prices).1 } =
    get_best_bid b
  simp only [get_best_bid, scanHeap_idem]

theorem get_best_ask_fix (b : OrderBook) :
    get_best_ask (get_best_ask b).1 = get_best_ask b := by
  show get_best_ask
    { b with ask_prices := (scanHeap b.ask_levels b.ask_prices).1 } =
    get_best_ask b
  simp only [get_best_ask, scanHeap_idem]

theorem tob_bid_price (b : OrderBook) :
    (get_top_of_book b).2.best_bid_price = (get_best_bid b).2.1 := rfl

theorem tob_ask_price (b : OrderBook) :
    (get_top_of_book b).2.best_ask_price = (get_best_ask b).2.1 := rfl

theorem tob_ts (b : OrderBook) :
    (get_top_of_book b).2.timestamp_ns = b.last_update_ns := rfl

theorem tob_book_fields (b : OrderBook) :
    (get_top_of_book b).1.orders = b.orders ∧
    (get_top_of_book b).1.bid_levels = b.bid_levels ∧
    (get_top_of_book b).1.ask_levels = b.ask_levels ∧
    (get_top_of_book b).1.last_update_ns = b.last_update_ns :=
  ⟨rfl, rfl, rfl, rfl⟩

/-- Purging is value-stable: re-reading the top of the book after
`get_top_of_book`'s own heap purge gives the same best prices. -/
theorem tob_purge_stable (b : OrderBook) :
    (get_top_of_book (get_top_of_book b).1).2.best_bid_price =
      (get_top_of_book b).2.best_bid_price ∧
    (get_top_of_book (get_top_of_book b).1).2.best_ask_price =
      (get_top_of_book b).2.best_ask_price := by
  constructor
  · show (get_best_bid (get_top_of_book b).1).2.1 = (get_best_bid b).2.1
    have h1 : (get_best_bid (get_top_of_book b).1).2 =
        (get_best_bid (get_best_bid b).1).2 := rfl
    rw [h1, get_best_bid_fix b]
  · show (get_best_ask (get_best_bid (get_top_of_book b).1).1).2.1 =
      (get_best_ask (get_best_bid b).1).2.1
    have h1 : (get_best_ask (get_best_bid (get_top_of_book b).1).1).2 =
        (get_best_ask (get_best_ask (get_best_bid b).1).1).2 := rfl
    rw [h1, get_best_ask_fix (get_best_bid b).1]

theorem Inv_getTop {b : OrderBook} (hInv : Inv b) : Inv (get_top_of_book b).1 :=
  Inv_purgeAsk (Inv_purgeBid hInv)

theorem Inv_dispatch {b : OrderBook} (hInv : Inv b) (e : Event) :
    Inv (dispatchAction e b) := by
  unfold dispatchAction
  by_cases h1 : e.action = "NEW"
  · rw [if_pos h1]
    exact Inv_add hInv _ _ _ _ _
  · rw [if_neg h1]
    by_cases h2 : e.action = "CHANGE"
    · rw [if_pos h2]
      exact Inv_modify hInv _ _ _ _
    · rw [if_neg h2]
      by_cases h3 : e.action = "DELETE"
      · rw [if_pos h3]
        exact Inv_delete hInv _ _
      · rw [if_neg h3]
        exact hInv

theorem Inv_bookFor {m : OrderBookManager} (hM : MInv m) (sid : ℤ)
    (sym : String) : Inv (bookFor m sid sym) := by
  unfold bookFor
  cases h : alookup sid m.books with
  | none => exact Inv_empty sid sym
  | some b => exact hM sid b h

theorem process_books (m : OrderBookManager) (e : Event) :
    (process_order m e).1.books = aset e.security_id
      (get_top_of_book (dispatchAction e
        (get_top_of_book (bookFor m e.security_id e.symbol)).1)).1 m.books := by
  simp only [process_order]
  split <;> rfl

theorem process_hist_some {m : OrderBookManager} {e : Event} {t : TopOfBook}
    (h : (process_order m e).2 = some t) :
    (process_order m e).1.tob_history = m.tob_history ++ [t] ∧
    t = (get_top_of_book (dispatchAction e
      (get_top_of_book (bookFor m e.security_id e.symbol)).1)).2 := by
  simp only [process_order] at h ⊢
  split at h
  · have ht : t = (get_top_of_book (dispatchAction e
        (get_top_of_book (bookFor m e.security_id e.symbol)).1)).2 := by
      injection h
      simp_all
    subst ht
    constructor
    · split
      · rfl
      · simp_all
    · rfl
  · exact absurd h (by simp)

theorem process_hist_none {m : OrderBookManager} {e : Event}
    (h : (process_order m e).2 = none) :
    (process_order m e).1.tob_history = m.tob_history := by
  simp only [process_order] at h ⊢
  split at h
  · exact absurd h (by simp)
  · split
    · simp_all
    · rfl

theorem MInv_process {m : OrderBookManager} (hM : MInv m) (e : Event) :
    MInv (process_order m e).1 := by
  intro sid b hb
  rw [process_books, alookup_aset_cases] at hb
  by_cases hsd : e.security_id = sid
  · rw [if_pos hsd] at hb
    have hb2 : b = (get_top_of_book (dispatchAction e
        (get_top_of_book (bookFor m e.security_id e.symbol)).1)).1 := by
      injection hb
      simp_all
    subst hb2
    exact Inv_getTop (Inv_dispatch (Inv_getTop (Inv_bookFor hM _ _)) e)
  · rw [if_neg hsd] at hb
    exact hM sid b hb

theorem MInv_processEvents {m : OrderBookManager} (hM : MInv m)
    (es : List Event) : MInv (processEvents m es) := by
  induction es generalizing m with
  | nil => exact hM
  | cons e rest ih => exact ih (MInv_process hM e)

theorem MInv_empty : MInv emptyManager := by
  intro sid b hb
  simp [emptyManager, alookup] at hb

theorem MInv_reachable {m : OrderBookManager} (h : MReachable m) : MInv m := by
  obtain ⟨es, rfl⟩ := h
  exact MInv_processEvents MInv_empty es

/-- `bestBidSpec`/`bestAskSpec` depend only on the orders map. -/
theorem bestSpec_congr {b₁ b₂ : OrderBook} (h : b₁.orders = b₂.orders) :
    bestBidSpec b₁ = bestBidSpec b₂ ∧ bestAskSpec b₁ = bestAskSpec b₂ := by
  unfold bestBidSpec bestAskSpec bidPricesOf askPricesOf bidOrdersAt askOrdersAt
  rw [h]
  exact ⟨rfl, rfl⟩

theorem orders_add_congr {b₁ b₂ : OrderBook} (hO : b₁.orders = b₂.orders)
    (oid : ℕ) (p : ℚ) (s : ℤ) (sd : String) (ts : ℤ) :
    (add_order oid p s sd ts b₁).orders = (add_order oid p s sd ts b₂).orders := by
  rcases h : alookup oid b₂.orders with _ | o
  · simp only [add_order, modify_order, hO, h]
    by_cases hsd : sd = "BID" <;> simp [hsd]
  · simp only [add_order, modify_order, hO, h]
    by_cases hs : o.side = "BID" <;> simp [hs]

theorem orders_modify_congr {b₁ b₂ : OrderBook} (hO : b₁.orders = b₂.orders)
    (oid : ℕ) (p : ℚ) (s : ℤ) (ts : ℤ) :
    (modify_order oid p s ts b₁).orders = (modify_order oid p s ts b₂).orders := by
  rcases h : alookup oid b₂.orders with _ | o
  · simp only [modify_order, hO, h]
  · simp only [modify_order, hO, h]
    by_cases hs : o.side = "BID" <;> simp [hs]

theorem orders_delete_congr {b₁ b₂ : OrderBook} (hO : b₁.orders = b₂.orders)
    (oid : ℕ) (ts : ℤ) :
    (delete_order oid ts b₁).orders = (delete_order oid ts b₂).orders := by
  rcases h : alookup oid b₂.orders with _ | o
  · simp only [delete_order, hO, h]
  · simp only [delete_order, hO, h]
    by_cases hs : o.side = "BID" <;> simp [hs]

theorem orders_dispatch_congr {b₁ b₂ : OrderBook} (hO : b₁.orders = b₂.orders)
    (e : Event) :
    (dispatchAction e b₁).orders = (dispatchAction e b₂).orders := by
  unfold dispatchAction
  by_cases h1 : e.action = "NEW"
  · simp only [if_pos h1]
    exact orders_add_congr hO _ _ _ _ _
  · simp only [if_neg h1]
    by_cases h2 : e.action = "CHANGE"
    · simp only [if_pos h2]
      exact orders_modify_congr hO _ _ _ _
    · simp only [if_neg h2]
      by_cases h3 : e.action = "DELETE"
      · simp only [if_pos h3]
        exact orders_delete_congr hO _ _
      · simp only [if_neg h3]
        exact hO

theorem modify_none {b : OrderBook} {oid : ℕ} (p : ℚ) (s ts : ℤ)
    (h : alookup oid b.orders = none) : modify_order oid p s ts b = b := by
  simp [modify_order, h]

theorem delete_none {b : OrderBook} {oid : ℕ} (ts : ℤ)
    (h : alookup oid b.orders = none) : delete_order oid ts b = b := by
  simp [delete_order, h]

theorem last_update_add (oid : ℕ) (p : ℚ) (s : ℤ) (sd : String) (ts : ℤ)
    (b : OrderBook) : (add_order oid p s sd ts b).last_update_ns = ts := by
  rcases h : alookup oid b.orders with _ | o
  · have hfl : (alookup oid b.orders).isSome = false := by rw [h]; rfl
    simp only [add_order, hfl, Bool.false_eq_true, if_false]
    by_cases hsd : sd = "BID" <;> simp [hsd]
  · have hfl : (alookup oid b.orders).isSome = true := by rw [h]; rfl
    simp only [add_order, hfl, if_true, modify_order, h]
    by_cases hs : o.side = "BID" <;> simp [hs]

theorem last_update_modify_some {b : OrderBook} {oid : ℕ} {o : Order}
    (p : ℚ) (s ts : ℤ) (h : alookup oid b.orders = some o) :
    (modify_order oid p s ts b).last_update_ns = ts := by
  simp only [modify_order, h]
  by_cases hs : o.side = "BID" <;> simp [hs]

theorem last_update_delete_some {b : OrderBook} {oid : ℕ} {o : Order}
    (ts : ℤ) (h : alookup oid b.orders = some o) :
    (delete_order oid ts b).last_update_ns = ts := by
  simp only [delete_order, h]
  by_cases hs : o.side = "BID" <;> simp [hs]

/-- An appended snapshot is stamped with the event time of the event that
produced it. -/
theorem process_append_ts {m : OrderBookManager} {e : Event} {t : TopOfBook}
    (h : (process_order m e).2 = some t) :
    t.timestamp_ns = e.timestamp_ns := by
  have hsome := process_hist_some h
  rw [hsome.2, tob_ts]
  have hcond : (get_top_of_book (bookFor m e.security_id e.symbol)).2.best_bid_price ≠
      (get_top_of_book (dispatchAction e
        (get_top_of_book (bookFor m e.security_id e.symbol)).1)).2.best_bid_price ∨
      (get_top_of_book (bookFor m e.security_id e.symbol)).2.best_ask_price ≠
      (get_top_of_book (dispatchAction e
        (get_top_of_book (bookFor m e.security_id e.symbol)).1)).2.best_ask_price := by
    by_contra hnc
    push_neg at hnc
    have hnone : (process_order m e).2 = none := by
      simp only [process_order]
      rw [if_neg (fun hor => hor.elim (fun hne => hne hnc.1) (fun hne => hne hnc.2))]
    rw [hnone] at h
    exact absurd h (by simp)
  have hnoop : dispatchAction e
      (get_top_of_book (bookFor m e.security_id e.symbol)).1 =
      (get_top_of_book (bookFor m e.security_id e.symbol)).1 → False := by
    intro hb2
    rw [hb2] at hcond
    rcases hcond with hx | hx
    · exact hx (tob_purge_stable (bookFor m e.security_id e.symbol)).1.symm
    · exact hx (tob_purge_stable (bookFor m e.security_id e.symbol)).2.symm
  unfold dispatchAction
  by_cases h1 : e.action = "NEW"
  · rw [if_pos h1]
    exact last_update_add _ _ _ _ _ _
  · rw [if_neg h1]
    by_cases h2 : e.action = "CHANGE"
    · rw [if_pos h2]
      rcases hlk : alookup e.order_id
          (get_top_of_book (bookFor m e.security_id e.symbol)).1.orders with _ | o
      · exact (hnoop (by unfold dispatchAction
                         rw [if_neg h1, if_pos h2]
                         exact modify_none _ _ _ hlk)).elim
      · exact last_update_modify_some _ _ _ hlk
    · rw [if_neg h2]
      by_cases h3 : e.action = "DELETE"
      · rw [if_pos h3]
        rcases hlk : alookup e.order_id
            (get_top_of_book (bookFor m e.security_id e.symbol)).1.orders with _ | o
        · exact (hnoop (by unfold dispatchAction
                           rw [if_neg h1, if_neg h2, if_pos h3]
                           exact delete_none _ hlk)).elim
        · exact last_update_delete_some _ hlk
      · rw [if_neg h3]
        exact (hnoop (by unfold dispatchAction
                         rw [if_neg h1, if_neg h2, if_neg h3])).elim

/-- History growth: processing a stream only appends snapshots whose
timestamps are event times of the stream. -/
theorem processEvents_hist_mem :
    ∀ (es : List Event) (m : OrderBookManager) (t : TopOfBook),
      t ∈ (processEvents m es).tob_history →
      t ∈ m.tob_history ∨ t.timestamp_ns ∈ es.map Event.timestamp_ns := by
  intro es
  induction es with
  | nil => intro m t ht; exact Or.inl ht
  | cons e rest ih =>
    intro m t ht
    rcases ih (process_order m e).1 t ht with h1 | h1
    · cases hp : (process_order m e).2 with
      | none =>
        rw [process_hist_none hp] at h1
        exact Or.inl h1
      | some t2 =>
        rw [(process_hist_some hp).1] at h1
        rcases List.mem_append.mp h1 with h2 | h2
        · exact Or.inl h2
        · have he : t = t2 := by simpa using h2
          subst he
          refine Or.inr ?_
          rw [List.map_cons, process_append_ts hp]
          exact List.mem_cons_self _ _
    · refine Or.inr ?_
      rw [List.map_cons]
      exact List.mem_cons_of_mem _ h1

theorem processEvents_sorted :
    ∀ (es : List Event) (m : OrderBookManager),
      ((m.tob_history.map TopOfBook.timestamp_ns) ++
        (es.map Event.timestamp_ns)).Pairwise (· ≤ ·) →
      (((processEvents m es).tob_history.map TopOfBook.timestamp_ns)).Pairwise
        (· ≤ ·) := by
  intro es
  induction es with
  | nil =>
    intro m h
    simpa using h.sublist (List.sublist_append_left _ _)
  | cons e rest ih =>
    intro m h
    show (((processEvents (process_order m e).1 rest).tob_history.map
      TopOfBook.timestamp_ns)).Pairwise (· ≤ ·)
    apply ih
    cases hp : (process_order m e).2 with
    | none =>
      rw [process_hist_none hp]
      refine h.sublist ?_
      rw [List.map_cons]
      exact (List.sublist_cons_self _ _).append_left _
    | some t =>
      rw [(process_hist_some hp).1]
      rw [List.map_append, List.append_assoc]
      rw [List.map_cons] at h
      have ht : t.timestamp_ns = e.timestamp_ns := process_append_ts hp
      simpa [ht] using h

/-- C3: `process_order` returns a snapshot — and appends exactly that
snapshot to the history — if and only if the best bid price or the best
ask price of the targeted book differs between the state before and the
state after applying the event; otherwise nothing is appended. -/
theorem claim_C3 (m : OrderBookManager) (hM : MReachable m) (e : Event) :
    ((process_order m e).2.isSome = true ↔
      ((get_best_bid (bookFor m e.security_id e.symbol)).2.1 ≠
        (get_best_bid (dispatchAction e
          (bookFor m e.security_id e.symbol))).2.1 ∨
       (get_best_ask (bookFor m e.security_id e.symbol)).2.1 ≠
        (get_best_ask (dispatchAction e
          (bookFor m e.security_id e.symbol))).2.1)) ∧
    (∀ t, (process_order m e).2 = some t →
      (process_order m e).1.tob_history = m.tob_history ++ [t]) ∧
    ((process_order m e).2 = none →
      (process_order m e).1.tob_history = m.tob_history) := by
  refine ⟨?_, fun t ht => (process_hist_some ht).1, fun hn => process_hist_none hn⟩
  have hInv0 : Inv (bookFor m e.security_id e.symbol) :=
    Inv_bookFor (MInv_reachable hM) _ _
  have hInv2 : Inv (dispatchAction e
      (get_top_of_book (bookFor m e.security_id e.symbol)).1) :=
    Inv_dispatch (Inv_getTop hInv0) e
  have hInvd : Inv (dispatchAction e (bookFor m e.security_id e.symbol)) :=
    Inv_dispatch hInv0 e
  have hOrd : (dispatchAction e
      (get_top_of_book (bookFor m e.security_id e.symbol)).1).orders =
      (dispatchAction e (bookFor m e.security_id e.symbol)).orders :=
    @orders_dispatch_congr (get_top_of_book (bookFor m e.security_id e.symbol)).1
      (bookFor m e.security_id e.symbol) rfl e
  have hbid2 : (get_best_bid (dispatchAction e
      (get_top_of_book (bookFor m e.security_id e.symbol)).1)).2 =
      (get_best_bid (dispatchAction e (bookFor m e.security_id e.symbol))).2 := by
    rw [get_best_bid_eq_spec hInv2, get_best_bid_eq_spec hInvd]
    exact (bestSpec_congr hOrd).1
  have hask2 : (get_best_ask (dispatchAction e
      (get_top_of_book (bookFor m e.security_id e.symbol)).1)).2 =
      (get_best_ask (dispatchAction e (bookFor m e.security_id e.symbol))).2 := by
    rw [get_best_ask_eq_spec hInv2, get_best_ask_eq_spec hInvd]
    exact (bestSpec_congr hOrd).2
  have e2 : (get_top_of_book (dispatchAction e
      (get_top_of_book (bookFor m e.security_id e.symbol)).1)).2.best_bid_price =
      (get_best_bid (dispatchAction e (bookFor m e.security_id e.symbol))).2.1 := by
    rw [tob_bid_price]
    exact congrArg Prod.fst hbid2
  have e4 : (get_top_of_book (dispatchAction e
      (get_top_of_book (bookFor m e.security_id e.symbol)).1)).2.best_ask_price =
      (get_best_ask (dispatchAction e (bookFor m e.security_id e.symbol))).2.1 := by
    rw [tob_ask_price]
    exact congrArg Prod.fst hask2
  have hcond_iff :
      ((get_top_of_book (bookFor m e.security_id e.symbol)).2.best_bid_price ≠
        (get_top_of_book (dispatchAction e
          (get_top_of_book (bookFor m e.security_id e.symbol)).1)).2.best_bid_price ∨
       (get_top_of_book (bookFor m e.security_id e.symbol)).2.best_ask_price ≠
        (get_top_of_book (dispatchAction e
          (get_top_of_book (bookFor m e.security_id
            e.symbol)).1)).2.best_ask_price) ↔
      ((get_best_bid (bookFor m e.security_id e.symbol)).2.1 ≠
        (get_best_bid (dispatchAction e
          (bookFor m e.security_id e.symbol))).2.1 ∨
       (get_best_ask (bookFor m e.security_id e.symbol)).2.1 ≠
        (get_best_ask (dispatchAction e
          (bookFor m e.security_id e.symbol))).2.1) := by
    rw [e2, e4, tob_bid_price, tob_ask_price]
  by_cases hc :
      ((get_top_of_book (bookFor m e.security_id e.symbol)).2.best_bid_price ≠
        (get_top_of_book (dispatchAction e
          (get_top_of_book (bookFor m e.security_id e.symbol)).1)).2.best_bid_price ∨
       (get_top_of_book (bookFor m e.security_id e.symbol)).2.best_ask_price ≠
        (get_top_of_book (dispatchAction e
          (get_top_of_book (bookFor m e.security_id
            e.symbol)).1)).2.best_ask_price)
  · refine iff_of_true ?_ (hcond_iff.mp hc)
    simp only [process_order]
    rw [if_pos hc]
    rfl
  · refine iff_of_false ?_ (fun hr => hc (hcond_iff.mpr hr))
    simp only [process_order]
    rw [if_neg hc]
    simp

theorem claim_C3_witness :
    MReachable emptyManager ∧
    ((process_order emptyManager exEvent).2.isSome = true ↔
      ((get_best_bid (bookFor emptyManager exEvent.security_id
          exEvent.symbol)).2.1 ≠
        (get_best_bid (dispatchAction exEvent (bookFor emptyManager
          exEvent.security_id exEvent.symbol))).2.1 ∨
       (get_best_ask (bookFor emptyManager exEvent.security_id
          exEvent.symbol)).2.1 ≠
        (get_best_ask (dispatchAction exEvent (bookFor emptyManager
          exEvent.security_id exEvent.symbol))).2.1)) :=
  ⟨⟨[], rfl⟩, (claim_C3 emptyManager ⟨[], rfl⟩ exEvent).1⟩

/-- C7: when the event stream's timestamps are non-decreasing, the
manager's top-of-book history timestamps are non-decreasing, and every
snapshot is stamped with one of the stream's event times. -/
theorem claim_C7 (es : List Event)
    (h : (es.map Event.timestamp_ns).Pairwise (· ≤ ·)) :
    (((processEvents emptyManager es).tob_history.map
      TopOfBook.timestamp_ns)).Pairwise (· ≤ ·) ∧
    ∀ t ∈ (processEvents emptyManager es).tob_history,
      t.timestamp_ns ∈ es.map Event.timestamp_ns := by
  constructor
  · exact processEvents_sorted es emptyManager (by simpa using h)
  · intro t ht
    rcases processEvents_hist_mem es emptyManager t ht with h1 | h1
    · simp [emptyManager] at h1
    · exact h1

theorem claim_C7_witness :
    ((exEvents.map Event.timestamp_ns).Pairwise (· ≤ ·)) ∧
    (((processEvents emptyManager exEvents).tob_history.map
      TopOfBook.timestamp_ns)).Pairwise (· ≤ ·) :=
  ⟨by decide, (claim_C7 exEvents (by decide)).1⟩

end OB
